import Mathlib

set_option maxRecDepth 100000

/-! # ts-jalaali: shallow embedding and verification

Shallow embedding of the core Jalaali/Gregorian conversion engine
(src/core.ts) and of the `JalaaliDate` wrapper class (src/jalaali.ts),
with the properties of the specification settled as theorems. JS numbers on
the integer-valued inputs of the core are modelled as `Int`; the JS `~~x`
coercion is `toInt32`; a thrown error is `none`/an error outcome. -/

def toInt32 (x : Int) : Int := (x + 2 ^ 31) % 2 ^ 32 - 2 ^ 31

def div (a b : Int) : Int := toInt32 (Int.tdiv a b)

def mod (a b : Int) : Int := a - toInt32 (Int.tdiv a b) * b

structure GregorianObject where
  gy : Int
  gm : Int
  gd : Int
deriving Repr, DecidableEq

structure JalaaliObject where
  jy : Int
  jm : Int
  jd : Int
deriving Repr, DecidableEq

structure JalCalResult where
  leap : Int
  gy : Int
  march : Int
deriving Repr, DecidableEq

def breaks : List Int :=
  [-61, 9, 38, 199, 426, 686, 756, 818, 1111, 1181, 1210, 1635, 2060, 2097, 2192, 2262, 2324,
   2394, 2456, 3178]

def firstBreak : Int := breaks.headD 0

def lastBreak : Int := breaks.getLastD 0

/-- The scan loop of `jalCal`: walks `breaks[1..]`, accumulating `leapJ` and tracking
`jp` and the last computed `jump`, stopping at the first break point exceeding `jy`.
Returns `(leapJ, jp, jump)`.  (Under the range guard the list is never exhausted.) -/
def jalCalLoop (jy : Int) : List Int → Int → Int → Int × Int × Int
  | [], leapJ, jp => (leapJ, jp, 0)
  | jm :: rest, leapJ, jp =>
    let jump := jm - jp
    if jy < jm then (leapJ, jp, jump)
    else jalCalLoop jy rest (leapJ + div jump 33 * 8 + div (mod jump 33) 4) jm

/-- `jalCal` from src/core.ts; the thrown `Invalid Jalaali year` error is modelled as `none`. -/
def jalCal (jy : Int) (withoutLeap : Bool) : Option JalCalResult :=
  let gy := jy + 621
  if jy < firstBreak ∨ lastBreak ≤ jy then none else
  let r := jalCalLoop jy breaks.tail (-14) firstBreak
  let jp := r.2.1
  let jump := r.2.2
  let n := jy - jp
  let leapJ₁ := r.1 + div n 33 * 8 + div (mod n 33 + 3) 4
  let leapJ := if mod jump 33 = 4 ∧ jump - n = 4 then leapJ₁ + 1 else leapJ₁
  let leapG := div gy 4 - div ((div gy 100 + 1) * 3) 4 - 150
  let march := 20 + leapJ - leapG
  if withoutLeap then some ⟨0, gy, march⟩ else
  let n₁ := if jump - n < 6 then n - jump + div (jump + 4) 33 * 33 else n
  let leap₀ := mod (mod (n₁ + 1) 33 - 1) 4
  let leap := if leap₀ = -1 then 4 else leap₀
  some ⟨leap, gy, march⟩

def g2d (gy gm gd : Int) : Int :=
  let d :=
    div ((gy + div (gm - 8) 6 + 100100) * 1461) 4 + div (153 * mod (gm + 9) 12 + 2) 5 + gd -
      34840408
  d - div (div (gy + 100100 + div (gm - 8) 6) 100 * 3) 4 + 752

def d2g (jdn : Int) : GregorianObject :=
  let j₀ := 4 * jdn + 139361631
  let j := j₀ + div (div (4 * jdn + 183187720) 146097 * 3) 4 * 4 - 3908
  let i := div (mod j 1461) 4 * 5 + 308
  let gd := div (mod i 153) 5 + 1
  let gm := mod (div i 153) 12 + 1
  let gy := div j 1461 - 100100 + div (8 - gm) 6
  ⟨gy, gm, gd⟩

def j2d (jy jm jd : Int) : Option Int :=
  (jalCal jy true).map fun r => g2d r.gy 3 r.march + (jm - 1) * 31 - div jm 7 * (jm - 7) + jd - 1

def d2j (jdn : Int) : Option JalaaliObject :=
  let gy := (d2g jdn).gy
  let jy := gy - 621
  (jalCal jy false).map fun r =>
    let jdn1f := g2d gy 3 r.march
    let k := jdn - jdn1f
    if 0 ≤ k then
      if k ≤ 185 then (⟨jy, 1 + div k 31, mod k 31 + 1⟩ : JalaaliObject)
      else
        let k₁ := k - 186
        ⟨jy, 7 + div k₁ 30, mod k₁ 30 + 1⟩
    else
      let k₁ := k + 179
      let k₂ := if r.leap = 1 then k₁ + 1 else k₁
      ⟨jy - 1, 7 + div k₂ 30, mod k₂ 30 + 1⟩

def toJalaali (gy gm gd : Int) : Option JalaaliObject := d2j (g2d gy gm gd)

def toGregorian (jy jm jd : Int) : Option GregorianObject := (j2d jy jm jd).map d2g

def isLeapJalaaliYear (jy : Int) : Option Bool := (jalCal jy false).map fun r => r.leap == 0

def jalaaliMonthLength (jy jm : Int) : Option Int :=
  if jm ≤ 6 then some 31
  else if jm ≤ 11 then some 30
  else (isLeapJalaaliYear jy).map fun l => if l then 30 else 29

/-- March day of the Jalaali new year, as computed by `jalCal` (0 when out of range). -/
def marchOf (jy : Int) : Int := ((jalCal jy true).map JalCalResult.march).getD 0

/-- The `leap` field of `jalCal` (99 when out of range). -/
def leapOf (jy : Int) : Int := ((jalCal jy false).map JalCalResult.leap).getD 99

/-- ediv form of `g2d` over the March-based shifted year `Y` and month-start offset `T`. -/
def g2dE (Y T gd : Int) : Int :=
  Y * 1461 / 4 + T + gd - 34840408 - Y / 100 * 3 / 4 + 752

def Jof (n : Int) : Int := 4 * n + 139361631 + (4 * n + 183187720) / 146097 * 3 / 4 * 4 - 3908

/-- ediv form of `d2g`. -/
def d2gE (n : Int) : GregorianObject :=
  let j := Jof n
  let i := j % 1461 / 4 * 5 + 308
  let gm := i / 153 % 12 + 1
  ⟨j / 1461 - 100100 + (if gm ≤ 2 then 1 else 0), gm, i % 153 / 5 + 1⟩

def gLeapB (Y : Int) : Prop := Y % 4 = 3 ∧ (Y % 100 ≠ 99 ∨ Y % 400 = 99)

instance (Y : Int) : Decidable (gLeapB Y) := by
  unfold gLeapB
  infer_instance

def leapGof (gy : Int) : Int := gy / 4 - (gy / 100 + 1) * 3 / 4 - 150

/-- Per-year consistency facts, checked wholesale over the supported table range:
the March day is in `[19, 22]`, and stepping one Jalaali year forward moves the
new-year JDN by `365` plus the leap flag (tied to `leapOf` via `leapGof`). -/
def checkYear (jy : Int) : Bool :=
  19 ≤ marchOf jy && marchOf jy ≤ 22 &&
  (jy == 3177 ||
    ((marchOf (jy + 1) - marchOf jy) + (leapGof (jy + 622) - leapGof (jy + 621))
        == (if leapOf (jy + 1) == 1 then 1 else 0) &&
     (leapOf (jy + 1) == 1) == (leapOf jy == 0)))

def isGregLeap (gy : Int) : Bool := (gy % 4 == 0 && gy % 100 != 0) || gy % 400 == 0

def gregMonthLength (gy gm : Int) : Int :=
  if gm = 2 then (if isGregLeap gy then 29 else 28)
  else if gm = 4 ∨ gm = 6 ∨ gm = 9 ∨ gm = 11 then 30
  else 31

/-! ### Model of the JS runtime used by the `JalaaliDate` wrapper (src/jalaali.ts)

A native `Date` is modelled as an integer count of milliseconds since the Unix
epoch (time zone offset taken as zero), with the calendar accessors realised
through `g2d`/`d2g`: `2440588` is the JDN of 1970-01-01. -/

def msPerDay : Int := 86400000

def epochJDN : Int := 2440588

def jdnOfTime (t : Int) : Int := t / msPerDay + epochJDN

def todOfTime (t : Int) : Int := t % msPerDay

def timeOfJdn (jdn tod : Int) : Int := (jdn - epochJDN) * msPerDay + tod

def getFullYear (t : Int) : Int := (d2g (jdnOfTime t)).gy

/-- Native `getMonth()` (0-indexed). -/
def getMonth0 (t : Int) : Int := (d2g (jdnOfTime t)).gm - 1

def getDate (t : Int) : Int := (d2g (jdnOfTime t)).gd

def getHours (t : Int) : Int := todOfTime t / 3600000

def getMinutes (t : Int) : Int := todOfTime t / 60000 % 60

def getSeconds (t : Int) : Int := todOfTime t / 1000 % 60

def getMilliseconds (t : Int) : Int := todOfTime t % 1000

/-- Native `setFullYear(y, m0, d)` on a timestamp (month 0-indexed, keeps the
time of day; out-of-range fields roll over, as `g2d` is total and linear). -/
def dateSetFullYear (t y m0 d : Int) : Int := timeOfJdn (g2d y (m0 + 1) d) (todOfTime t)

def dateSetMonth (t m0 d : Int) : Int := timeOfJdn (g2d (getFullYear t) (m0 + 1) d) (todOfTime t)

def dateSetDate (t d : Int) : Int :=
  timeOfJdn (g2d (getFullYear t) (getMonth0 t + 1) d) (todOfTime t)

/-- Native `setHours(h, mi, s, ms)` with all four fields given. -/
def dateSetHours (t h mi s ms : Int) : Int :=
  timeOfJdn (jdnOfTime t) (h * 3600000 + mi * 60000 + s * 1000 + ms)

/-- The `JalaaliDate` wrapper: the inherited `Date` timestamp plus the lazy
Jalaali cache (`#cache`). -/
structure JalaaliDate where
  time : Int
  cache : Option JalaaliObject
deriving Repr, DecidableEq

namespace JalaaliDate

/-- The `(jy, jm, jd)` constructor: `toGregorian`, then `super(gy, gm - 1, gd)`
at midnight, then seed the cache with the given triple. The core's
invalid-year throw propagates as `none`. -/
def ofJalaali (jy jm jd : Int) : Option JalaaliDate :=
  (toGregorian jy jm jd).map fun g =>
    { time := timeOfJdn (g2d g.gy g.gm g.gd) 0, cache := some ⟨jy, jm, jd⟩ }

/-- `#hydrate`: fill the cache from the Gregorian fields when empty; yields the
cache data and the updated instance. -/
def hydrate (s : JalaaliDate) : Option (JalaaliObject × JalaaliDate) :=
  match s.cache with
  | some c => some (c, s)
  | none => (toJalaali (getFullYear s.time) (getMonth0 s.time + 1) (getDate s.time)).map
      fun j => (j, { s with cache := some j })

/-- The `jy` getter. -/
def jy (s : JalaaliDate) : Option Int := s.hydrate.map fun p => p.1.jy

def jm (s : JalaaliDate) : Option Int := s.hydrate.map fun p => p.1.jm

def jd (s : JalaaliDate) : Option Int := s.hydrate.map fun p => p.1.jd

/-- Override `setFullYear(year)` (single argument): native update, then
`#invalidate`. -/
def setFullYear1 (s : JalaaliDate) (y : Int) : JalaaliDate :=
  { time := dateSetFullYear s.time y (getMonth0 s.time) (getDate s.time), cache := none }

def setMonth1 (s : JalaaliDate) (m0 : Int) : JalaaliDate :=
  { time := dateSetMonth s.time m0 (getDate s.time), cache := none }

def setDate (s : JalaaliDate) (d : Int) : JalaaliDate :=
  { time := dateSetDate s.time d, cache := none }

def setHours1 (s : JalaaliDate) (h : Int) : JalaaliDate :=
  { time := dateSetHours s.time h (getMinutes s.time) (getSeconds s.time)
      (getMilliseconds s.time), cache := none }

def setMinutes1 (s : JalaaliDate) (mi : Int) : JalaaliDate :=
  { time := dateSetHours s.time (getHours s.time) mi (getSeconds s.time)
      (getMilliseconds s.time), cache := none }

def setSeconds1 (s : JalaaliDate) (sec : Int) : JalaaliDate :=
  { time := dateSetHours s.time (getHours s.time) (getMinutes s.time) sec
      (getMilliseconds s.time), cache := none }

def setMilliseconds1 (s : JalaaliDate) (ms : Int) : JalaaliDate :=
  { time := dateSetHours s.time (getHours s.time) (getMinutes s.time) (getSeconds s.time) ms,
    cache := none }

def setTime (s : JalaaliDate) (tv : Int) : JalaaliDate := { time := tv, cache := none }

/-- `setJalaaliYear`: clamp the hydrated day to the target month length, apply
via `toGregorian` + `super.setFullYear`, and store the applied triple. -/
def setJalaaliYear (s : JalaaliDate) (year : Int) : Option JalaaliDate :=
  match s.hydrate with
  | none => none
  | some (c, s₁) =>
    (jalaaliMonthLength year c.jm).bind fun maxDays =>
      (toGregorian year c.jm (min c.jd maxDays)).map fun g =>
        { time := (dateSetFullYear s₁.time g.gy (g.gm - 1) g.gd),
          cache := some ⟨year, c.jm, min c.jd maxDays⟩ }

/-- `setJalaaliMonth(month, day?)`: the explicit `day` argument, when given,
is used as is; only the hydrated current day is clamped. -/
def setJalaaliMonth (s : JalaaliDate) (month : Int) (day : Option Int) : Option JalaaliDate :=
  match s.hydrate with
  | none => none
  | some (c, s₁) =>
    (jalaaliMonthLength c.jy month).bind fun maxDays =>
      let newDay := day.getD (min c.jd maxDays)
      (toGregorian c.jy month newDay).map fun g =>
        { time := (dateSetFullYear s₁.time g.gy (g.gm - 1) g.gd),
          cache := some ⟨c.jy, month, newDay⟩ }

/-- `setJalaaliDate(day)`: no clamping; the raw day is applied and stored. -/
def setJalaaliDate (s : JalaaliDate) (day : Int) : Option JalaaliDate :=
  match s.hydrate with
  | none => none
  | some (c, s₁) =>
    (toGregorian c.jy c.jm day).map fun g =>
      { time := (dateSetFullYear s₁.time g.gy (g.gm - 1) g.gd),
        cache := some ⟨c.jy, c.jm, day⟩ }

end JalaaliDate

/-- `DateObjectUnits` (src/typings.ts): all fields optional. -/
structure DateObjectUnits where
  jy : Option Int := none
  jm : Option Int := none
  jd : Option Int := none
  year : Option Int := none
  month : Option Int := none
  day : Option Int := none
  gy : Option Int := none
  gm : Option Int := none
  gd : Option Int := none
  hour : Option Int := none
  minute : Option Int := none
  second : Option Int := none
  millisecond : Option Int := none
deriving Repr, DecidableEq

/-- Outcome of `set`: normal return, the ambiguous-calendars throw, or the
core's invalid-year throw — each carrying the instance state at that moment. -/
inductive SetResult where
  | ok (s : JalaaliDate)
  | ambiguous (s : JalaaliDate)
  | invalidYear (s : JalaaliDate)
deriving Repr, DecidableEq

/-- The instance state a `set` outcome carries (auxiliary to state properties). -/
def SetResult.state : SetResult → JalaaliDate
  | .ok s => s
  | .ambiguous s => s
  | .invalidYear s => s

/-- Whether `set` returned normally (auxiliary to state properties). -/
def SetResult.isOk : SetResult → Bool
  | .ok _ => true
  | _ => false

namespace JalaaliDate

/-- `set(values)`: time-of-day fields are applied (and the cache invalidated)
before the Jalaali/Gregorian conflict check. -/
def set (s : JalaaliDate) (v : DateObjectUnits) : SetResult :=
  let s₁ := match v.hour with
    | some h => { s with time := (dateSetHours s.time h (getMinutes s.time) (getSeconds s.time)
        (getMilliseconds s.time)) }
    | none => s
  let s₂ := match v.minute with
    | some mi => { s₁ with time := (dateSetHours s₁.time (getHours s₁.time) mi
        (getSeconds s₁.time) (getMilliseconds s₁.time)) }
    | none => s₁
  let s₃ := match v.second with
    | some sec => { s₂ with time := (dateSetHours s₂.time (getHours s₂.time)
        (getMinutes s₂.time) sec (getMilliseconds s₂.time)) }
    | none => s₂
  let s₄ := match v.millisecond with
    | some ms => { s₃ with time := (dateSetHours s₃.time (getHours s₃.time)
        (getMinutes s₃.time) (getSeconds s₃.time) ms) }
    | none => s₃
  let timeChanged := v.hour.isSome || v.minute.isSome || v.second.isSome || v.millisecond.isSome
  let s₅ := if timeChanged then { s₄ with cache := none } else s₄
  let hasJalaali := v.jy.isSome || v.jm.isSome || v.jd.isSome || v.year.isSome ||
    v.month.isSome || v.day.isSome
  let hasGregorian := v.gy.isSome || v.gm.isSome || v.gd.isSome
  if hasJalaali && hasGregorian then .ambiguous s₅
  else if hasJalaali then
    match s₅.hydrate with
    | none => .invalidYear s₅
    | some (c, s₆) =>
      let targetJy := ((v.jy).orElse fun _ => v.year).getD c.jy
      let targetJm := ((v.jm).orElse fun _ => v.month).getD c.jm
      let targetJd := ((v.jd).orElse fun _ => v.day).getD c.jd
      match jalaaliMonthLength targetJy targetJm with
      | none => .invalidYear s₆
      | some maxDays =>
        let clampedJd := min targetJd maxDays
        match toGregorian targetJy targetJm clampedJd with
        | none => .invalidYear s₆
        | some g => .ok ⟨dateSetFullYear s₆.time g.gy (g.gm - 1) g.gd,
            some ⟨targetJy, targetJm, clampedJd⟩⟩
  else if hasGregorian then
    .ok ⟨dateSetFullYear s₅.time (v.gy.getD (getFullYear s₅.time))
        ((v.gm.getD (getMonth0 s₅.time + 1)) - 1) (v.gd.getD (getDate s₅.time)), none⟩
  else .ok s₅

end JalaaliDate

inductive AddUnit where
  | day
  | month
  | year
deriving Repr, DecidableEq

namespace JalaaliDate

/-- `add(amount, unit)`: day additions go through the native `setDate`; month
additions normalise the month (JS `%` is `Int.tmod`, `Math.floor` division is
`Int.ediv`) and chain `setJalaaliYear` then `setJalaaliMonth`. -/
def add (s : JalaaliDate) (amount : Int) (u : AddUnit) : Option JalaaliDate :=
  match u with
  | .day => some (s.setDate (getDate s.time + amount))
  | .month =>
    match s.hydrate with
    | none => none
    | some (c, s₁) =>
      let newMonth := c.jm + amount
      let yearDiff := (newMonth - 1) / 12
      let newYear := c.jy + yearDiff
      let nm₁ := Int.tmod (newMonth - 1) 12 + 1
      let nm := if nm₁ ≤ 0 then nm₁ + 12 else nm₁
      (s₁.setJalaaliYear newYear).bind fun s₂ => s₂.setJalaaliMonth nm none
  | .year =>
    match s.hydrate with
    | none => none
    | some (c, s₁) => s₁.setJalaaliYear (c.jy + amount)

end JalaaliDate

theorem toInt32_eq (x : Int) (h1 : -2 ^ 31 ≤ x) (h2 : x < 2 ^ 31) : toInt32 x = x := by
  unfold toInt32; omega

theorem div_eq (a b : Int) (ha : 0 ≤ a) (hb : 0 < b) (h : a < 2 ^ 31 * b) :
    div a b = a / b := by
  unfold div
  rw [Int.tdiv_eq_ediv ha (le_of_lt hb)]
  refine toInt32_eq _ ?_ ?_
  · have := Int.ediv_nonneg ha (le_of_lt hb); omega
  · exact Int.ediv_lt_of_lt_mul hb (by linarith [h])

theorem mod_eq (a b : Int) (ha : 0 ≤ a) (hb : 0 < b) (h : a < 2 ^ 31 * b) :
    mod a b = a % b := by
  unfold mod
  rw [Int.tdiv_eq_ediv ha (le_of_lt hb), toInt32_eq]
  · rw [Int.emod_def]; ring
  · have := Int.ediv_nonneg ha (le_of_lt hb); omega
  · exact Int.ediv_lt_of_lt_mul hb (by linarith [h])

theorem div86 (gm : Int) (h1 : 1 ≤ gm) (h2 : gm ≤ 12) :
    div (gm - 8) 6 = if gm ≤ 2 then -1 else 0 := by
  interval_cases gm <;> decide

theorem div8m (gm : Int) (h1 : 1 ≤ gm) (h2 : gm ≤ 12) :
    div (8 - gm) 6 = if gm ≤ 2 then 1 else 0 := by
  interval_cases gm <;> decide

theorem mod912 (gm : Int) (h1 : 1 ≤ gm) (h2 : gm ≤ 12) :
    mod (gm + 9) 12 = if gm ≤ 2 then gm + 9 else gm - 3 := by
  interval_cases gm <;> decide

theorem g2d_eq (gy gm gd : Int) (hy0 : 0 ≤ gy) (hy1 : gy ≤ 5000000) (hm1 : 1 ≤ gm)
    (hm2 : gm ≤ 12) :
    g2d gy gm gd =
      g2dE (gy + 100100 + (if gm ≤ 2 then -1 else 0))
        ((153 * (if gm ≤ 2 then gm + 9 else gm - 3) + 2) / 5) gd := by
  simp only [g2d, g2dE, div86 gm hm1 hm2, mod912 gm hm1 hm2]
  rcases le_or_lt gm 2 with h | h
  · have hc : 0 ≤ (gy + 100100 + -1) / 100 := Int.ediv_nonneg (by omega) (by omega)
    have hcu : (gy + 100100 + -1) / 100 ≤ 5100099 / 100 := Int.ediv_le_ediv (by omega) (by omega)
    simp only [if_pos h]
    rw [div_eq (gy + 100100 + -1) 100 (by omega) (by omega) (by omega),
      div_eq ((gy + 100100 + -1) / 100 * 3) 4 (by omega) (by omega) (by omega),
      div_eq ((gy + -1 + 100100) * 1461) 4 (by nlinarith) (by omega) (by nlinarith),
      div_eq (153 * (gm + 9) + 2) 5 (by omega) (by omega) (by omega)]
    have : (gy + -1 + 100100) * 1461 = (gy + 100100 + -1) * 1461 := by ring
    rw [this]
  · have hc : 0 ≤ (gy + 100100 + 0) / 100 := Int.ediv_nonneg (by omega) (by omega)
    have hcu : (gy + 100100 + 0) / 100 ≤ 5100100 / 100 := Int.ediv_le_ediv (by omega) (by omega)
    simp only [if_neg (by omega : ¬ gm ≤ 2)]
    rw [div_eq (gy + 100100 + 0) 100 (by omega) (by omega) (by omega),
      div_eq ((gy + 100100 + 0) / 100 * 3) 4 (by omega) (by omega) (by omega),
      div_eq ((gy + 0 + 100100) * 1461) 4 (by nlinarith) (by omega) (by nlinarith),
      div_eq (153 * (gm - 3) + 2) 5 (by omega) (by omega) (by omega)]
    have : (gy + 0 + 100100) * 1461 = (gy + 100100 + 0) * 1461 := by ring
    rw [this]

theorem d2g_eq (n : Int) (h0 : 0 ≤ n) (h1 : n ≤ 7 * 10 ^ 11) : d2g n = d2gE n := by
  have hq0 : 0 ≤ (4 * n + 183187720) / 146097 := Int.ediv_nonneg (by omega) (by omega)
  have hq : (4 * n + 183187720) / 146097 ≤ (4 * (7 * 10 ^ 11 : Int) + 183187720) / 146097 :=
    Int.ediv_le_ediv (by omega) (by omega)
  have e1 : div (4 * n + 183187720) 146097 = (4 * n + 183187720) / 146097 :=
    div_eq _ _ (by omega) (by omega) (by omega)
  have hq30 : 0 ≤ (4 * n + 183187720) / 146097 * 3 / 4 := Int.ediv_nonneg (by omega) (by omega)
  have hq3 : (4 * n + 183187720) / 146097 * 3 / 4
      ≤ ((4 * (7 * 10 ^ 11 : Int) + 183187720) / 146097 * 3) / 4 :=
    Int.ediv_le_ediv (by omega) (by omega)
  have e2 : div ((4 * n + 183187720) / 146097 * 3) 4 = (4 * n + 183187720) / 146097 * 3 / 4 :=
    div_eq _ _ (by omega) (by omega) (by omega)
  have hjof : 4 * n + 139361631 + (4 * n + 183187720) / 146097 * 3 / 4 * 4 - 3908 = Jof n := rfl
  have hj0 : 0 ≤ Jof n := by unfold Jof; omega
  have hjb : Jof n < 2 ^ 31 * 1461 := by unfold Jof; omega
  have e3 : mod (Jof n) 1461 = Jof n % 1461 := mod_eq _ _ hj0 (by omega) hjb
  have e4 : div (Jof n) 1461 = Jof n / 1461 := div_eq _ _ hj0 (by omega) hjb
  have hm0 : 0 ≤ Jof n % 1461 := Int.emod_nonneg _ (by omega)
  have hm1 : Jof n % 1461 < 1461 := Int.emod_lt_of_pos _ (by omega)
  have hm40 : 0 ≤ Jof n % 1461 / 4 := Int.ediv_nonneg (by omega) (by omega)
  have hm41 : Jof n % 1461 / 4 ≤ 1460 / 4 := Int.ediv_le_ediv (by omega) (by omega)
  have e5 : div (Jof n % 1461) 4 = Jof n % 1461 / 4 := div_eq _ _ hm0 (by omega) (by omega)
  have hi0 : (0:Int) ≤ Jof n % 1461 / 4 * 5 + 308 := by omega
  have hi1 : Jof n % 1461 / 4 * 5 + 308 ≤ 2133 := by omega
  have e6 : mod (Jof n % 1461 / 4 * 5 + 308) 153 = (Jof n % 1461 / 4 * 5 + 308) % 153 :=
    mod_eq _ _ hi0 (by omega) (by omega)
  have e7 : div (Jof n % 1461 / 4 * 5 + 308) 153 = (Jof n % 1461 / 4 * 5 + 308) / 153 :=
    div_eq _ _ hi0 (by omega) (by omega)
  have hi153m0 : 0 ≤ (Jof n % 1461 / 4 * 5 + 308) % 153 := Int.emod_nonneg _ (by omega)
  have hi153m1 : (Jof n % 1461 / 4 * 5 + 308) % 153 < 153 := Int.emod_lt_of_pos _ (by omega)
  have e8 : div ((Jof n % 1461 / 4 * 5 + 308) % 153) 5 = (Jof n % 1461 / 4 * 5 + 308) % 153 / 5 :=
    div_eq _ _ hi153m0 (by omega) (by omega)
  have hq1530 : 0 ≤ (Jof n % 1461 / 4 * 5 + 308) / 153 := Int.ediv_nonneg (by omega) (by omega)
  have hq153u : (Jof n % 1461 / 4 * 5 + 308) / 153 ≤ 2133 / 153 :=
    Int.ediv_le_ediv (by omega) (by omega)
  have hgm0 : 0 ≤ (Jof n % 1461 / 4 * 5 + 308) / 153 % 12 := Int.emod_nonneg _ (by omega)
  have hgm1 : (Jof n % 1461 / 4 * 5 + 308) / 153 % 12 < 12 := Int.emod_lt_of_pos _ (by omega)
  have e9 : mod ((Jof n % 1461 / 4 * 5 + 308) / 153) 12
      = (Jof n % 1461 / 4 * 5 + 308) / 153 % 12 := mod_eq _ _ (by omega) (by omega) (by omega)
  have e10 : div (8 - ((Jof n % 1461 / 4 * 5 + 308) / 153 % 12 + 1)) 6
      = if (Jof n % 1461 / 4 * 5 + 308) / 153 % 12 + 1 ≤ 2 then 1 else 0 :=
    div8m _ (by omega) (by omega)
  simp only [d2g, d2gE, e1, e2, hjof, e3, e4, e5, e6, e7, e8, e9, e10]

/-- The 1461-block decomposition of `Jof` applied to a `g2dE` value: the
Julian-day formula lands day `gd` of the month with start offset `T` inside
the 1461-quarter-day block of March-year `Y`. -/
theorem ediv_pin (x k b r : Int) (hb : 0 < b) (hx : x = b * k + r) (h0 : 0 ≤ r)
    (h1 : r < b) : x / b = k := by
  subst hx
  rw [mul_comm, add_comm, Int.add_mul_ediv_right r k (by omega),
    Int.ediv_eq_zero_of_lt h0 h1, zero_add]

theorem J_char (Y T gd : Int) (hY1 : 90000 ≤ Y) (hY2 : Y ≤ 110000) (hT1 : 0 ≤ T)
    (hT2 : T ≤ 337) (hd1 : 1 ≤ gd) (hS : T + gd ≤ 366)
    (hv : T + gd ≤ 365 ∨ (T + gd = 366 ∧ Y % 4 = 3 ∧ (Y % 100 ≠ 99 ∨ Y % 400 = 99))) :
    1461 * Y + 4 * (T + gd) - 4 ≤ Jof (g2dE Y T gd) ∧
      Jof (g2dE Y T gd) ≤ 1461 * Y + 4 * (T + gd) - 1 ∧
      Jof (g2dE Y T gd) ≤ 1461 * Y + 1460 := by
  have hr1 : Y * 1461 / 4 * 4 = 1461 * Y - Y % 4 := by omega
  have hr3 : Y / 100 * 3 / 4 * 4 = 3 * (Y / 100) - 3 * (Y / 100) % 4 := by omega
  have hA : (4 * g2dE Y T gd + 183187720) / 146097 = Y / 100 + 300 := by
    refine ediv_pin _ _ _ (4 * g2dE Y T gd + 183187720 - 146097 * (Y / 100 + 300))
      (by omega) (by ring) ?_ ?_ <;>
    · unfold g2dE
      omega
  unfold Jof
  rw [hA]
  unfold g2dE
  omega

/-- Decoding `d2gE` inside a located 1461-block: month index `mp` (0 = March),
start offset `T`, day `gd`. -/
theorem d2gE_char (n Y mp T gd : Int)
    (hu1 : 5 * T ≤ 153 * mp + 2) (hu2 : 153 * mp + 2 < 5 * T + 5)
    (hmp1 : 0 ≤ mp) (hmp2 : mp ≤ 11) (hgd1 : 1 ≤ gd)
    (hgd2 : 5 * T + 5 * gd + 303 < 153 * (mp + 3))
    (h1 : 1461 * Y + 4 * (T + gd) - 4 ≤ Jof n) (h2 : Jof n ≤ 1461 * Y + 4 * (T + gd) - 1)
    (h3 : Jof n ≤ 1461 * Y + 1460) :
    d2gE n = ⟨Y - 100100 + (if (mp + 2) % 12 + 1 ≤ 2 then 1 else 0), (mp + 2) % 12 + 1, gd⟩ := by
  have hq : Jof n / 1461 = Y := by omega
  have hg : Jof n % 1461 / 4 = T + gd - 1 := by omega
  have he : (Jof n % 1461 / 4 * 5 + 308) / 153 = mp + 2 := by rw [hg]; omega
  have hm : (Jof n % 1461 / 4 * 5 + 308) % 153 = 5 * T + 5 * gd + 303 - 153 * (mp + 2) := by
    rw [hg]; omega
  have hd : (Jof n % 1461 / 4 * 5 + 308) % 153 / 5 = gd - 1 := by rw [hm]; omega
  simp only [d2gE, he, hd, hq, GregorianObject.mk.injEq]
  exact ⟨trivial, trivial, by omega⟩

theorem g2dE_split (Y T gd : Int) : g2dE Y T gd = g2dE Y 0 (T + gd) := by
  unfold g2dE
  ring

theorem g2dE_add (Y T a b : Int) : g2dE Y T (a + b) = g2dE Y T a + b := by
  unfold g2dE
  ring

theorem q1step (Y : Int) : (Y + 1) * 1461 / 4 - Y * 1461 / 4
    = 365 + (if Y % 4 = 3 then 1 else 0) := by
  have c1 : Y * 1461 / 4 * 4 = 1461 * Y - Y % 4 := by omega
  have c2 : (Y + 1) * 1461 / 4 * 4 = 1461 * (Y + 1) - (Y + 1) % 4 := by omega
  by_cases h : Y % 4 = 3
  · rw [if_pos h]; omega
  · rw [if_neg h]; omega

theorem cstep (Q : Int) : (Q + 1) * 3 / 4 - Q * 3 / 4 = if Q % 4 = 0 then 0 else 1 := by
  have c1 : Q * 3 / 4 * 4 = Q * 3 - Q * 3 % 4 := by omega
  have c2 : (Q + 1) * 3 / 4 * 4 = (Q + 1) * 3 - (Q + 1) * 3 % 4 := by omega
  by_cases h : Q % 4 = 0
  · rw [if_pos h]; omega
  · rw [if_neg h]
    rcases (by omega : Q % 4 = 1 ∨ Q % 4 = 2 ∨ Q % 4 = 3) with h1 | h1 | h1 <;> omega

theorem Qstep (a : Int) : (a + 1) / 100 - a / 100 = if a % 100 = 99 then 1 else 0 := by
  by_cases h : a % 100 = 99
  · rw [if_pos h]; omega
  · rw [if_neg h]; omega

theorem Gstep (Y x : Int) :
    g2dE (Y + 1) 0 x = g2dE Y 0 x + 365 + (if gLeapB Y then 1 else 0) := by
  have hq := q1step Y
  have hQ := Qstep Y
  unfold g2dE gLeapB
  by_cases h100 : Y % 100 = 99
  · rw [if_pos h100] at hQ
    have hQ1 : (Y + 1) / 100 = Y / 100 + 1 := by omega
    have hc := cstep (Y / 100)
    rw [hQ1]
    have h43 : Y % 4 = 3 := by omega
    rw [if_pos h43] at hq
    by_cases h400 : Y % 400 = 99
    · have hz : Y / 100 % 4 = 0 := by omega
      rw [if_pos hz] at hc
      rw [if_pos ⟨h43, Or.inr h400⟩]
      omega
    · have hz : ¬ (Y / 100 % 4 = 0) := by omega
      rw [if_neg hz] at hc
      rw [if_neg (by rintro ⟨-, h | h⟩ <;> omega)]
      omega
  · rw [if_neg h100] at hQ
    have hQ1 : (Y + 1) / 100 = Y / 100 := by omega
    rw [hQ1]
    by_cases h43 : Y % 4 = 3
    · rw [if_pos h43] at hq
      rw [if_pos ⟨h43, Or.inl h100⟩]
      omega
    · rw [if_neg h43] at hq
      rw [if_neg (by rintro ⟨h, -⟩; exact h43 h)]
      omega

theorem LGstep (gy : Int) : leapGof (gy + 1) - leapGof gy
    = (if gLeapB (gy + 100100) then 1 else 0) := by
  have hq : (gy + 1) / 4 - gy / 4 = if gy % 4 = 3 then 1 else 0 := by
    by_cases h : gy % 4 = 3
    · rw [if_pos h]; omega
    · rw [if_neg h]; omega
  have hQ := Qstep gy
  unfold leapGof gLeapB
  by_cases h100 : gy % 100 = 99
  · rw [if_pos h100] at hQ
    have hQ1 : (gy + 1) / 100 = gy / 100 + 1 := by omega
    have hc := cstep (gy / 100 + 1)
    have h43 : gy % 4 = 3 := by omega
    rw [if_pos h43] at hq
    rw [hQ1]
    by_cases h400 : gy % 400 = 399
    · have hz : (gy / 100 + 1) % 4 = 0 := by omega
      rw [if_pos hz] at hc
      rw [if_pos ⟨by omega, Or.inr (by omega)⟩]
      omega
    · have hz : ¬ ((gy / 100 + 1) % 4 = 0) := by omega
      rw [if_neg hz] at hc
      rw [if_neg (by rintro ⟨-, h | h⟩ <;> omega)]
      omega
  · rw [if_neg h100] at hQ
    have hQ1 : (gy + 1) / 100 = gy / 100 := by omega
    rw [hQ1]
    by_cases h43 : gy % 4 = 3
    · rw [if_pos h43] at hq
      rw [if_pos ⟨by omega, Or.inl (by omega)⟩]
      omega
    · rw [if_neg h43] at hq
      rw [if_neg (by rintro ⟨h, -⟩; omega)]
      omega

theorem firstBreak_eq : firstBreak = -61 := by decide

theorem lastBreak_eq : lastBreak = 3178 := by decide

theorem jalCal_none_iff (jy : Int) (wl : Bool) :
    jalCal jy wl = none ↔ (jy < -61 ∨ 3178 ≤ jy) := by
  unfold jalCal
  by_cases hg : jy < firstBreak ∨ lastBreak ≤ jy
  · rw [if_pos hg]
    simp only [true_iff]
    rw [firstBreak_eq, lastBreak_eq] at hg
    omega
  · rw [if_neg hg]
    rw [firstBreak_eq, lastBreak_eq] at hg
    cases wl
    · simp only [Bool.false_eq_true, if_false]
      constructor
      · intro h
        exact absurd h (by simp)
      · intro h
        omega
    · simp only [if_true]
      constructor
      · intro h
        exact absurd h (by simp)
      · intro h
        omega

theorem jalCal_true_eq (jy : Int) (h1 : -61 ≤ jy) (h2 : jy < 3178) :
    jalCal jy true = some ⟨0, jy + 621, marchOf jy⟩ := by
  have hg : ¬ (jy < firstBreak ∨ lastBreak ≤ jy) := by
    rw [firstBreak_eq, lastBreak_eq]
    omega
  unfold marchOf
  simp only [jalCal, if_neg hg, if_true, Option.map_some', Option.getD_some]

theorem jalCal_false_eq (jy : Int) (h1 : -61 ≤ jy) (h2 : jy < 3178) :
    jalCal jy false = some ⟨leapOf jy, jy + 621, marchOf jy⟩ := by
  have hg : ¬ (jy < firstBreak ∨ lastBreak ≤ jy) := by
    rw [firstBreak_eq, lastBreak_eq]
    omega
  unfold marchOf leapOf
  simp only [jalCal, if_neg hg, if_true, Bool.false_eq_true, if_false, Option.map_some',
    Option.getD_some]

set_option maxRecDepth 100000 in
set_option maxHeartbeats 4000000 in
theorem allYearsOKA :
    ((List.range 405).all fun k => checkYear ((k : Int) + (-61))) = true := by
  decide

set_option maxRecDepth 100000 in
set_option maxHeartbeats 4000000 in
theorem allYearsOKB :
    ((List.range 405).all fun k => checkYear ((k : Int) + (344))) = true := by
  decide

set_option maxRecDepth 100000 in
set_option maxHeartbeats 4000000 in
theorem allYearsOKC :
    ((List.range 405).all fun k => checkYear ((k : Int) + (749))) = true := by
  decide

set_option maxRecDepth 100000 in
set_option maxHeartbeats 4000000 in
theorem allYearsOKD :
    ((List.range 405).all fun k => checkYear ((k : Int) + (1154))) = true := by
  decide

set_option maxRecDepth 100000 in
set_option maxHeartbeats 4000000 in
theorem allYearsOKE :
    ((List.range 405).all fun k => checkYear ((k : Int) + (1559))) = true := by
  decide

set_option maxRecDepth 100000 in
set_option maxHeartbeats 4000000 in
theorem allYearsOKF :
    ((List.range 405).all fun k => checkYear ((k : Int) + (1964))) = true := by
  decide

set_option maxRecDepth 100000 in
set_option maxHeartbeats 4000000 in
theorem allYearsOKG :
    ((List.range 405).all fun k => checkYear ((k : Int) + (2369))) = true := by
  decide

set_option maxRecDepth 100000 in
set_option maxHeartbeats 4000000 in
theorem allYearsOKH :
    ((List.range 404).all fun k => checkYear ((k : Int) + (2774))) = true := by
  decide

/-- Extract one year's check from a verified block. -/
theorem all_range_spec (N : Nat) (off : Int)
    (h : ((List.range N).all fun k => checkYear ((k : Int) + off)) = true) (jy : Int)
    (h1 : off ≤ jy) (h2 : jy < off + N) : checkYear jy = true := by
  have hk : (jy - off).toNat < N := by omega
  have hall := List.all_eq_true.mp h _ (List.mem_range.mpr hk)
  have he : (((jy - off).toNat : Int)) + off = jy := by omega
  rwa [he] at hall

theorem yearFact (jy : Int) (h1 : -61 ≤ jy) (h2 : jy ≤ 3177) : checkYear jy = true := by
  rcases (by omega : jy < 344 ∨ (344 ≤ jy ∧ jy < 749) ∨ (749 ≤ jy ∧ jy < 1154) ∨
      (1154 ≤ jy ∧ jy < 1559) ∨ (1559 ≤ jy ∧ jy < 1964) ∨ (1964 ≤ jy ∧ jy < 2369) ∨
      (2369 ≤ jy ∧ jy < 2774) ∨ 2774 ≤ jy) with
    h | h | h | h | h | h | h | h
  · exact all_range_spec 405 (-61) allYearsOKA jy (by omega) (by omega)
  · exact all_range_spec 405 344 allYearsOKB jy (by omega) (by omega)
  · exact all_range_spec 405 749 allYearsOKC jy (by omega) (by omega)
  · exact all_range_spec 405 1154 allYearsOKD jy (by omega) (by omega)
  · exact all_range_spec 405 1559 allYearsOKE jy (by omega) (by omega)
  · exact all_range_spec 405 1964 allYearsOKF jy (by omega) (by omega)
  · exact all_range_spec 405 2369 allYearsOKG jy (by omega) (by omega)
  · exact all_range_spec 404 2774 allYearsOKH jy (by omega) (by omega)

theorem marchOf_bounds (jy : Int) (h1 : -61 ≤ jy) (h2 : jy ≤ 3177) :
    19 ≤ marchOf jy ∧ marchOf jy ≤ 22 := by
  have h := yearFact jy h1 h2
  unfold checkYear at h
  simp only [Bool.and_eq_true, Bool.or_eq_true, decide_eq_true_eq, beq_iff_eq] at h
  exact ⟨h.1.1, h.1.2⟩

theorem yearStep (jy : Int) (h1 : -61 ≤ jy) (h2 : jy ≤ 3176) :
    (marchOf (jy + 1) - marchOf jy) + (leapGof (jy + 622) - leapGof (jy + 621))
        = (if leapOf (jy + 1) = 1 then 1 else 0) ∧
    (leapOf (jy + 1) = 1 ↔ leapOf jy = 0) := by
  have h := yearFact jy h1 (by omega)
  unfold checkYear at h
  simp only [Bool.and_eq_true, Bool.or_eq_true, decide_eq_true_eq, beq_iff_eq] at h
  rcases h.2 with h3 | ⟨hB, hC⟩
  · omega
  · refine ⟨?_, ?_⟩
    · by_cases hl : leapOf (jy + 1) = 1
      · rw [if_pos hl]; rw [if_pos hl] at hB; exact hB
      · rw [if_neg hl]; rw [if_neg hl] at hB; exact hB
    · have hC2 : ((leapOf (jy + 1) == 1) = true) = ((leapOf jy == 0) = true) := by rw [hC]
      simp only [beq_iff_eq] at hC2
      exact iff_of_eq hC2

/-- `g2d` at March reduces to the `g2dE` normal form at `T = 0`. -/
theorem jdn1_g2d (jy : Int) (h1 : -61 ≤ jy) (h2 : jy ≤ 3177) :
    g2d (jy + 621) 3 (marchOf jy) = g2dE (jy + 100721) 0 (marchOf jy) := by
  have h := g2d_eq (jy + 621) 3 (marchOf jy) (by omega) (by omega) (by omega) (by omega)
  simp only [if_neg (by omega : ¬ (3:Int) ≤ 2)] at h
  rw [h]
  have e1 : jy + 621 + 100100 + 0 = jy + 100721 := by ring
  have e2 : (153 * ((3:Int) - 3) + 2) / 5 = 0 := by decide
  rw [e1, e2]

/-- Stepping the Jalaali new-year JDN one year forward adds the year length. -/
theorem jdn1_step (jy : Int) (h1 : -61 ≤ jy) (h2 : jy ≤ 3176) :
    g2dE (jy + 1 + 100721) 0 (marchOf (jy + 1))
      = g2dE (jy + 100721) 0 (marchOf jy) + 365 + (if leapOf jy = 0 then 1 else 0) := by
  obtain ⟨hB, hC⟩ := yearStep jy h1 h2
  have hG := Gstep (jy + 100721) (marchOf (jy + 1))
  have hL := LGstep (jy + 621)
  have e1 : jy + 100721 + 1 = jy + 1 + 100721 := by ring
  have e2 : jy + 621 + 100100 = jy + 100721 := by ring
  have e3 : jy + 621 + 1 = jy + 622 := by ring
  rw [e1] at hG
  rw [e2, e3] at hL
  have hadd : g2dE (jy + 100721) 0 (marchOf (jy + 1))
      = g2dE (jy + 100721) 0 (marchOf jy) + (marchOf (jy + 1) - marchOf jy) := by
    have e4 : marchOf (jy + 1) = marchOf jy + (marchOf (jy + 1) - marchOf jy) := by ring
    rw [e4, g2dE_add, ← e4]
  rw [hG, hadd]
  by_cases hgl : gLeapB (jy + 100721)
  · rw [if_pos hgl] at hL ⊢
    by_cases hl : leapOf (jy + 1) = 1
    · rw [if_pos hl] at hB
      rw [if_pos (hC.mp hl)]
      omega
    · rw [if_neg hl] at hB
      rw [if_neg (fun hx => hl (hC.mpr hx))]
      omega
  · rw [if_neg hgl] at hL ⊢
    by_cases hl : leapOf (jy + 1) = 1
    · rw [if_pos hl] at hB
      rw [if_pos (hC.mp hl)]
      omega
    · rw [if_neg hl] at hB
      rw [if_neg (fun hx => hl (hC.mpr hx))]
      omega

/-- The Gregorian year field of the decode of a March-based `g2dE` point: the
civil year advances exactly when the day-of-March-year reaches 307. -/
theorem d2gE_gy0 (Y d : Int) (hY1 : 90000 ≤ Y) (hY2 : Y ≤ 110000) (hd1 : 1 ≤ d)
    (hv : d ≤ 365 ∨ (d = 366 ∧ Y % 4 = 3 ∧ (Y % 100 ≠ 99 ∨ Y % 400 = 99))) :
    (d2gE (g2dE Y 0 d)).gy = Y - 100100 + (if 307 ≤ d then 1 else 0) := by
  have hd2 : d ≤ 366 := by rcases hv with h | ⟨h, -⟩ <;> omega
  have hv' : 0 + d ≤ 365 ∨ (0 + d = 366 ∧ Y % 4 = 3 ∧ (Y % 100 ≠ 99 ∨ Y % 400 = 99)) := by
    rcases hv with h | ⟨h, h2⟩
    · exact Or.inl (by omega)
    · exact Or.inr ⟨by omega, h2⟩
  obtain ⟨j1, j2, j3⟩ := J_char Y 0 d hY1 hY2 le_rfl (by omega) hd1 (by omega) hv'
  have hq : Jof (g2dE Y 0 d) / 1461 = Y := by omega
  have hg : Jof (g2dE Y 0 d) % 1461 / 4 = d - 1 := by omega
  simp only [d2gE, hq, hg]
  rcases le_or_lt 307 d with h | h
  · have hxl : 12 ≤ ((d - 1) * 5 + 308) / 153 := by omega
    have hxu : ((d - 1) * 5 + 308) / 153 ≤ 13 := by omega
    have hx : ((d - 1) * 5 + 308) / 153 % 12 = ((d - 1) * 5 + 308) / 153 - 12 := by omega
    rw [if_pos h, if_pos (by omega : ((d - 1) * 5 + 308) / 153 % 12 + 1 ≤ 2)]
  · have hxl : 2 ≤ ((d - 1) * 5 + 308) / 153 := by omega
    have hxu : ((d - 1) * 5 + 308) / 153 ≤ 11 := by omega
    have hx : ((d - 1) * 5 + 308) / 153 % 12 = ((d - 1) * 5 + 308) / 153 := by omega
    rw [if_neg (by omega : ¬ 307 ≤ d),
      if_neg (by omega : ¬ (((d - 1) * 5 + 308) / 153 % 12 + 1 ≤ 2))]

theorem div7 (jm : Int) (h1 : 1 ≤ jm) (h2 : jm ≤ 12) :
    div jm 7 = if jm ≤ 6 then 0 else 1 := by
  interval_cases jm <;> decide

/-- `j2d` in the supported year range: new-year JDN plus the in-year day offset. -/
theorem j2d_eq (jy jm jd : Int) (h1 : -61 ≤ jy) (h2 : jy ≤ 3177) (hm1 : 1 ≤ jm)
    (hm2 : jm ≤ 12) :
    j2d jy jm jd = some (g2dE (jy + 100721) 0 (marchOf jy)
      + ((jm - 1) * 31 - (if jm ≤ 6 then 0 else 1) * (jm - 7) + jd - 1)) := by
  unfold j2d
  rw [jalCal_true_eq jy h1 (by omega)]
  simp only [Option.map_some']
  rw [jdn1_g2d jy h1 h2, div7 jm hm1 hm2]
  congr 1
  ring

/-- Shared tail of the autumn/winter cases of `d2j`: once the decoded Gregorian
year is the NEXT Jalaali year's civil year, `d2j` rebases from the next new-year
JDN and lands in months 7..12 of year `jy`. -/
theorem d2j_charBC (jy t : Int) (h1 : -61 ≤ jy) (h2 : jy ≤ 3176) (ht0 : 186 ≤ t)
    (ht1 : t ≤ 364 + (if leapOf jy = 0 then 1 else 0))
    (hgy : (d2g (g2dE (jy + 100721) 0 (marchOf jy) + t)).gy = jy + 622) :
    d2j (g2dE (jy + 100721) 0 (marchOf jy) + t)
      = some (⟨jy, 7 + (t - 186) / 30, (t - 186) % 30 + 1⟩ : JalaaliObject) := by
  obtain ⟨hB, hC⟩ := yearStep jy h1 h2
  simp only [d2j]
  rw [hgy]
  have e6 : jy + 622 - 621 = jy + 1 := by ring
  rw [e6, jalCal_false_eq (jy + 1) (by omega) (by omega)]
  simp only [Option.map_some']
  have e7 : jy + 622 = jy + 1 + 621 := by ring
  rw [e7, jdn1_g2d (jy + 1) (by omega) (by omega), jdn1_step jy h1 h2]
  by_cases hl : leapOf jy = 0
  · rw [if_pos hl] at ht1 ⊢
    rw [if_neg (show ¬ (0:Int) ≤ g2dE (jy + 100721) 0 (marchOf jy) + t -
        (g2dE (jy + 100721) 0 (marchOf jy) + 365 + 1) from by omega)]
    rw [if_pos (hC.mpr hl)]
    rw [show g2dE (jy + 100721) 0 (marchOf jy) + t -
        (g2dE (jy + 100721) 0 (marchOf jy) + 365 + 1) + 179 + 1 = t - 186 from by ring]
    rw [div_eq (t - 186) 30 (by omega) (by omega) (by omega),
      mod_eq (t - 186) 30 (by omega) (by omega) (by omega),
      show jy + 1 - 1 = jy from by ring]
  · rw [if_neg hl] at ht1 ⊢
    rw [if_neg (show ¬ (0:Int) ≤ g2dE (jy + 100721) 0 (marchOf jy) + t -
        (g2dE (jy + 100721) 0 (marchOf jy) + 365 + 0) from by omega)]
    rw [if_neg (fun hx => hl (hC.mp hx))]
    rw [show g2dE (jy + 100721) 0 (marchOf jy) + t -
        (g2dE (jy + 100721) 0 (marchOf jy) + 365 + 0) + 179 = t - 186 from by ring]
    rw [div_eq (t - 186) 30 (by omega) (by omega) (by omega),
      mod_eq (t - 186) 30 (by omega) (by omega) (by omega),
      show jy + 1 - 1 = jy from by ring]

/-- `d2j` decodes day `t` (0-based) of Jalaali year `jy` correctly. -/
theorem d2j_char (jy t : Int) (h1 : -61 ≤ jy) (h2 : jy ≤ 3176) (ht0 : 0 ≤ t)
    (ht1 : t ≤ 364 + (if leapOf jy = 0 then 1 else 0)) :
    d2j (g2dE (jy + 100721) 0 (marchOf jy) + t)
      = some (if t ≤ 185 then (⟨jy, 1 + t / 31, t % 31 + 1⟩ : JalaaliObject)
              else ⟨jy, 7 + (t - 186) / 30, (t - 186) % 30 + 1⟩) := by
  obtain ⟨hm19, hm22⟩ := marchOf_bounds jy h1 (by omega)
  have hlfb : (if leapOf jy = 0 then (1:Int) else 0) = 0 ∨
      (if leapOf jy = 0 then (1:Int) else 0) = 1 := by
    split_ifs <;> simp
  have hglb : (if gLeapB (jy + 100721) then (1:Int) else 0) = 0 ∨
      (if gLeapB (jy + 100721) then (1:Int) else 0) = 1 := by
    split_ifs <;> simp
  have hne : g2dE (jy + 100721) 0 (marchOf jy) + t = g2dE (jy + 100721) 0 (marchOf jy + t) :=
    (g2dE_add (jy + 100721) 0 (marchOf jy) t).symm
  by_cases hA : marchOf jy + t ≤ 306
  · -- spring/summer and early autumn: same civil year
    have hgy : (d2g (g2dE (jy + 100721) 0 (marchOf jy) + t)).gy = jy + 621 := by
      rw [hne, d2g_eq _ (by unfold g2dE; omega) (by unfold g2dE; omega),
        d2gE_gy0 (jy + 100721) (marchOf jy + t) (by omega) (by omega) (by omega)
          (Or.inl (by omega)),
        if_neg (by omega : ¬ 307 ≤ marchOf jy + t)]
      ring
    simp only [d2j]
    rw [hgy]
    have e5 : jy + 621 - 621 = jy := by ring
    rw [e5, jalCal_false_eq jy h1 (by omega)]
    simp only [Option.map_some']
    rw [jdn1_g2d jy h1 (by omega)]
    rw [if_pos (show (0:Int) ≤ g2dE (jy + 100721) 0 (marchOf jy) + t -
        g2dE (jy + 100721) 0 (marchOf jy) from by omega)]
    rw [show g2dE (jy + 100721) 0 (marchOf jy) + t - g2dE (jy + 100721) 0 (marchOf jy) = t
      from by ring]
    rcases le_or_lt t 185 with hts | hts
    · rw [if_pos hts, if_pos hts, div_eq t 31 ht0 (by omega) (by omega),
        mod_eq t 31 ht0 (by omega) (by omega)]
    · rw [if_neg (not_le.mpr hts), if_neg (not_le.mpr hts),
        div_eq (t - 186) 30 (by omega) (by omega) (by omega),
        mod_eq (t - 186) 30 (by omega) (by omega) (by omega)]
  · by_cases hBc : marchOf jy + t ≤ 365 + (if gLeapB (jy + 100721) then 1 else 0)
    · -- late autumn/winter, still inside the current 365/366-day window
      have hv : marchOf jy + t ≤ 365 ∨ (marchOf jy + t = 366 ∧ (jy + 100721) % 4 = 3 ∧
          ((jy + 100721) % 100 ≠ 99 ∨ (jy + 100721) % 400 = 99)) := by
        by_cases hg : gLeapB (jy + 100721)
        · rcases le_or_lt (marchOf jy + t) 365 with hx | hx
          · exact Or.inl hx
          · rw [if_pos hg] at hBc
            exact Or.inr ⟨by omega, hg.1, hg.2⟩
        · rw [if_neg hg] at hBc
          exact Or.inl (by omega)
      have hgy : (d2g (g2dE (jy + 100721) 0 (marchOf jy) + t)).gy = jy + 622 := by
        rw [hne, d2g_eq _ (by unfold g2dE; omega) (by unfold g2dE; omega),
          d2gE_gy0 (jy + 100721) (marchOf jy + t) (by omega) (by omega) (by omega) hv,
          if_pos (by omega : 307 ≤ marchOf jy + t)]
        ring
      rw [if_neg (show ¬ t ≤ 185 from by omega)]
      exact d2j_charBC jy t h1 h2 (by omega) ht1 hgy
    · -- day at or past the next Farvardin 1 in March-year terms: rebase one year up
      have hreb : g2dE (jy + 100721) 0 (marchOf jy + t)
          = g2dE (jy + 1 + 100721) 0
              (marchOf jy + t - 365 - (if gLeapB (jy + 100721) then 1 else 0)) := by
        have hG2 := Gstep (jy + 100721)
          (marchOf jy + t - 365 - (if gLeapB (jy + 100721) then 1 else 0))
        have e8 : jy + 100721 + 1 = jy + 1 + 100721 := by ring
        rw [e8] at hG2
        rw [hG2]
        by_cases hg : gLeapB (jy + 100721)
        · rw [if_pos hg]
          rw [show marchOf jy + t = (marchOf jy + t - 365 - 1) + 366 from by ring, g2dE_add]
          ring
        · rw [if_neg hg]
          rw [show marchOf jy + t = (marchOf jy + t - 365 - 0) + 365 from by ring, g2dE_add]
          ring
      have hgy : (d2g (g2dE (jy + 100721) 0 (marchOf jy) + t)).gy = jy + 622 := by
        rw [hne, hreb, d2g_eq _ (by unfold g2dE; omega) (by unfold g2dE; omega),
          d2gE_gy0 (jy + 1 + 100721)
            (marchOf jy + t - 365 - (if gLeapB (jy + 100721) then 1 else 0))
            (by omega) (by omega) (by omega) (Or.inl (by omega)),
          if_neg (by omega : ¬ 307 ≤ marchOf jy + t - 365 -
            (if gLeapB (jy + 100721) then 1 else 0))]
        ring
      rw [if_neg (show ¬ t ≤ 185 from by omega)]
      exact d2j_charBC jy t h1 h2 (by omega) ht1 hgy

theorem g2d_eq' (gy gm gd c T : Int) (hy0 : 0 ≤ gy) (hy1 : gy ≤ 5000000) (hm1 : 1 ≤ gm)
    (hm2 : gm ≤ 12) (hc : c = if gm ≤ 2 then -1 else 0)
    (hT : T = (153 * (if gm ≤ 2 then gm + 9 else gm - 3) + 2) / 5) :
    g2d gy gm gd = g2dE (gy + 100100 + c) T gd := by
  subst hc hT
  exact g2d_eq gy gm gd hy0 hy1 hm1 hm2

theorem gregMonthLength_facts (gy gm : Int) :
    1 ≤ gregMonthLength gy gm ∧ gregMonthLength gy gm ≤ 31 ∧
    (gm = 2 → (gregMonthLength gy gm ≤ 28 ∨ (gregMonthLength gy gm = 29 ∧
      ((gy % 4 = 0 ∧ ¬ gy % 100 = 0) ∨ gy % 400 = 0)))) ∧
    ((gm = 4 ∨ gm = 6 ∨ gm = 9 ∨ gm = 11) → gregMonthLength gy gm = 30) := by
  have hbool : (isGregLeap gy = true) = ((gy % 4 = 0 ∧ ¬ gy % 100 = 0) ∨ gy % 400 = 0) := by
    simp only [isGregLeap, Bool.or_eq_true, Bool.and_eq_true, beq_iff_eq, bne_iff_ne,
      eq_iff_iff, ne_eq]
  unfold gregMonthLength
  simp only [hbool]
  split_ifs with a b c
  · exact ⟨by omega, by omega, fun _ => Or.inr ⟨rfl, b⟩, fun h => by omega⟩
  · exact ⟨by omega, by omega, fun _ => Or.inl (by omega), fun h => by omega⟩
  · exact ⟨by omega, by omega, fun h => absurd h a, fun _ => rfl⟩
  · exact ⟨by omega, by omega, fun h => absurd h a, fun h => absurd h c⟩

theorem rt_month (gy M mp T c gd : Int) (hM1 : 1 ≤ M) (hM2 : M ≤ 12)
    (hmp : mp = if M ≤ 2 then M + 9 else M - 3)
    (hc : c = if M ≤ 2 then -1 else 0)
    (hT : T = (153 * mp + 2) / 5)
    (hy0 : 400 ≤ gy) (hy1 : gy ≤ 3900) (hd1 : 1 ≤ gd) (hd2 : gd ≤ gregMonthLength gy M) :
    d2g (g2d gy M gd) = ⟨gy, M, gd⟩ := by
  obtain ⟨hL1, hL2, hLf2, hL30⟩ := gregMonthLength_facts gy M
  have hmc : (M ≤ 2 ∧ mp = M + 9 ∧ c = -1) ∨ (2 < M ∧ mp = M - 3 ∧ c = 0) := by
    rcases le_or_lt M 2 with h | h
    · exact Or.inl ⟨h, by rw [hmp, if_pos h], by rw [hc, if_pos h]⟩
    · exact Or.inr ⟨h, by rw [hmp, if_neg (by omega)], by rw [hc, if_neg (by omega)]⟩
  clear hmp hc
  have hTval : 5 * T ≤ 153 * mp + 2 ∧ 153 * mp + 2 < 5 * T + 5 := by omega
  have hlen2 : M = 2 → (gd ≤ 28 ∨ (gd = 29 ∧ ((gy % 4 = 0 ∧ ¬ gy % 100 = 0) ∨ gy % 400 = 0))) := by
    intro h
    rcases hLf2 h with h1 | h1
    · exact Or.inl (by omega)
    · rcases le_or_lt gd 28 with h2 | h2
      · exact Or.inl h2
      · exact Or.inr ⟨by omega, h1.2⟩
  have hlen30 : (M = 4 ∨ M = 6 ∨ M = 9 ∨ M = 11) → gd ≤ 30 := fun h => by
    have := hL30 h
    omega
  have hv : T + gd ≤ 365 ∨ (T + gd = 366 ∧ (gy + 100100 + c) % 4 = 3 ∧
      ((gy + 100100 + c) % 100 ≠ 99 ∨ (gy + 100100 + c) % 400 = 99)) := by
    rcases hmc with ⟨h, hm, hcv⟩ | ⟨h, hm, hcv⟩
    · rcases (by omega : M = 1 ∨ M = 2) with h1 | h1
      · left
        have : mp = 10 := by omega
        omega
      · have hl := hlen2 h1
        have hmp11 : mp = 11 := by omega
        have hT337 : T = 337 := by omega
        rcases hl with h2 | ⟨h2, h3⟩
        · left; omega
        · rcases le_or_lt (T + gd) 365 with h4 | h4
          · exact Or.inl h4
          · refine Or.inr ⟨by omega, by omega, ?_⟩
            rcases h3 with ⟨h5, h6⟩ | h5
            · left; omega
            · right; omega
    · left
      have hmp9 : mp ≤ 9 := by omega
      omega
  obtain ⟨j1, j2, j3⟩ := J_char (gy + 100100 + c) T gd (by omega) (by omega) (by omega)
    (by omega) hd1 (by omega) hv
  have hcEq : c = if M ≤ 2 then -1 else 0 := by
    rcases hmc with ⟨h, _, hcv⟩ | ⟨h, _, hcv⟩
    · rw [if_pos h]; omega
    · rw [if_neg (by omega)]; omega
  have hTEq : T = (153 * (if M ≤ 2 then M + 9 else M - 3) + 2) / 5 := by
    rcases hmc with ⟨h, hm, _⟩ | ⟨h, hm, _⟩
    · rw [if_pos h, ← hm, ← hT]
    · rw [if_neg (by omega), ← hm, ← hT]
  rw [g2d_eq' gy M gd c T (by omega) (by omega) (by omega) (by omega) hcEq hTEq]
  rw [d2g_eq _ (by unfold g2dE; omega) (by unfold g2dE; omega)]
  have hu : 153 * mp + 2 - 5 * T = (3 * mp + 2) % 5 := by omega
  have hgd2 : 5 * T + 5 * gd + 303 < 153 * (mp + 3) := by
    rcases hmc with ⟨h, hm, hcv⟩ | ⟨h, hm, hcv⟩
    · rcases (by omega : M = 1 ∨ M = 2) with h1 | h1
      · omega
      · have := hlen2 h1
        omega
    · have hM3 : 3 ≤ M := by omega
      have h30 := hlen30
      interval_cases M <;> omega
  rw [d2gE_char (g2dE (gy + 100100 + c) T gd) (gy + 100100 + c) mp T gd hTval.1 hTval.2
    (by omega) (by omega) hd1 hgd2 j1 j2 j3]
  simp only [GregorianObject.mk.injEq]
  clear hcEq hTEq hv hd2 hL1 hL2 hLf2 hL30 hlen2 hlen30 j1 j2 j3 hgd2 hu hTval hT
  refine ⟨?_, ?_, trivial⟩ <;>
    rcases hmc with ⟨h, hm, hcv⟩ | ⟨h, hm, hcv⟩ <;>
    omega

theorem d2g_g2d (gy gm gd : Int) (hy0 : 400 ≤ gy) (hy1 : gy ≤ 3900) (hm1 : 1 ≤ gm)
    (hm2 : gm ≤ 12) (hd1 : 1 ≤ gd) (hd2 : gd ≤ gregMonthLength gy gm) :
    d2g (g2d gy gm gd) = ⟨gy, gm, gd⟩ := by
  have hmp : gm = if gm ≤ 2 then gm + 9 - 9 else gm - 3 + 3 := by
    split_ifs <;> omega
  refine rt_month gy gm (if gm ≤ 2 then gm + 9 else gm - 3)
    ((153 * (if gm ≤ 2 then gm + 9 else gm - 3) + 2) / 5) (if gm ≤ 2 then -1 else 0) gd
    hm1 hm2 rfl rfl rfl hy0 hy1 hd1 hd2

theorem Jof_mono (m n : Int) (h : m ≤ n) : Jof m + 4 * (n - m) ≤ Jof n := by
  have h1 : (4 * m + 183187720) / 146097 ≤ (4 * n + 183187720) / 146097 :=
    Int.ediv_le_ediv (by omega) (by omega)
  have h2 : (4 * m + 183187720) / 146097 * 3 / 4 ≤ (4 * n + 183187720) / 146097 * 3 / 4 :=
    Int.ediv_le_ediv (by omega) (by omega)
  unfold Jof
  omega

/-- Shared per-month parameter facts used by the round trip and monotonicity. -/
theorem month_setup (gy M mp T c gd : Int) (hM1 : 1 ≤ M) (hM2 : M ≤ 12)
    (hmp : mp = if M ≤ 2 then M + 9 else M - 3)
    (hc : c = if M ≤ 2 then -1 else 0)
    (hT : T = (153 * mp + 2) / 5)
    (hd1 : 1 ≤ gd) (hd2 : gd ≤ gregMonthLength gy M) :
    (5 * T ≤ 153 * mp + 2 ∧ 153 * mp + 2 < 5 * T + 5) ∧ (0 ≤ mp ∧ mp ≤ 11) ∧ gd ≤ 31 ∧
    (T + gd ≤ 365 ∨ (T + gd = 366 ∧ (gy + 100100 + c) % 4 = 3 ∧
      ((gy + 100100 + c) % 100 ≠ 99 ∨ (gy + 100100 + c) % 400 = 99))) ∧
    (5 * T + 5 * gd + 303 < 153 * (mp + 3)) ∧
    ((M ≤ 2 ∧ mp = M + 9 ∧ c = -1) ∨ (2 < M ∧ mp = M - 3 ∧ c = 0)) := by
  obtain ⟨hL1, hL2, hLf2, hL30⟩ := gregMonthLength_facts gy M
  have hmc : (M ≤ 2 ∧ mp = M + 9 ∧ c = -1) ∨ (2 < M ∧ mp = M - 3 ∧ c = 0) := by
    rcases le_or_lt M 2 with h | h
    · exact Or.inl ⟨h, by rw [hmp, if_pos h], by rw [hc, if_pos h]⟩
    · exact Or.inr ⟨h, by rw [hmp, if_neg (by omega)], by rw [hc, if_neg (by omega)]⟩
  clear hmp hc
  have hTval : 5 * T ≤ 153 * mp + 2 ∧ 153 * mp + 2 < 5 * T + 5 := by omega
  have hlen2 : M = 2 → (gd ≤ 28 ∨ (gd = 29 ∧ ((gy % 4 = 0 ∧ ¬ gy % 100 = 0) ∨ gy % 400 = 0))) := by
    intro h
    rcases hLf2 h with h1 | h1
    · exact Or.inl (by omega)
    · rcases le_or_lt gd 28 with h2 | h2
      · exact Or.inl h2
      · exact Or.inr ⟨by omega, h1.2⟩
  have hlen30 : (M = 4 ∨ M = 6 ∨ M = 9 ∨ M = 11) → gd ≤ 30 := fun h => by
    have := hL30 h
    omega
  have hv : T + gd ≤ 365 ∨ (T + gd = 366 ∧ (gy + 100100 + c) % 4 = 3 ∧
      ((gy + 100100 + c) % 100 ≠ 99 ∨ (gy + 100100 + c) % 400 = 99)) := by
    rcases hmc with ⟨h, hm, hcv⟩ | ⟨h, hm, hcv⟩
    · rcases (by omega : M = 1 ∨ M = 2) with h1 | h1
      · left
        have : mp = 10 := by omega
        omega
      · have hl := hlen2 h1
        have hmp11 : mp = 11 := by omega
        have hT337 : T = 337 := by omega
        rcases hl with h2 | ⟨h2, h3⟩
        · left; omega
        · rcases le_or_lt (T + gd) 365 with h4 | h4
          · exact Or.inl h4
          · refine Or.inr ⟨by omega, by omega, ?_⟩
            rcases h3 with ⟨h5, h6⟩ | h5
            · left; omega
            · right; omega
    · left
      have hmp9 : mp ≤ 9 := by omega
      omega
  have hgd2 : 5 * T + 5 * gd + 303 < 153 * (mp + 3) := by
    rcases hmc with ⟨h, hm, hcv⟩ | ⟨h, hm, hcv⟩
    · rcases (by omega : M = 1 ∨ M = 2) with h1 | h1
      · omega
      · have := hlen2 h1
        omega
    · have hM3 : 3 ≤ M := by omega
      have h30 := hlen30
      interval_cases M <;> omega
  exact ⟨hTval, by omega, by omega, hv, hgd2, hmc⟩

/-- In the supported window `g2d` is strictly increasing in calendar order. -/
theorem g2d_lt (y1 m1 d1 y2 m2 d2 : Int) (hw1 : 400 ≤ y1) (hw2 : y1 ≤ 3900)
    (hw3 : 400 ≤ y2) (hw4 : y2 ≤ 3900)
    (hm1a : 1 ≤ m1) (hm1b : m1 ≤ 12) (hd1a : 1 ≤ d1) (hd1b : d1 ≤ gregMonthLength y1 m1)
    (hm2a : 1 ≤ m2) (hm2b : m2 ≤ 12) (hd2a : 1 ≤ d2) (hd2b : d2 ≤ gregMonthLength y2 m2)
    (hlex : y1 < y2 ∨ (y1 = y2 ∧ (m1 < m2 ∨ (m1 = m2 ∧ d1 < d2)))) :
    g2d y1 m1 d1 < g2d y2 m2 d2 := by
  obtain ⟨hTv1, hmp1, h31a, hv1, hg1, hmc1⟩ := month_setup y1 m1
    (if m1 ≤ 2 then m1 + 9 else m1 - 3) ((153 * (if m1 ≤ 2 then m1 + 9 else m1 - 3) + 2) / 5)
    (if m1 ≤ 2 then -1 else 0) d1 hm1a hm1b rfl rfl rfl hd1a hd1b
  obtain ⟨hTv2, hmp2, h31b, hv2, hg2, hmc2⟩ := month_setup y2 m2
    (if m2 ≤ 2 then m2 + 9 else m2 - 3) ((153 * (if m2 ≤ 2 then m2 + 9 else m2 - 3) + 2) / 5)
    (if m2 ≤ 2 then -1 else 0) d2 hm2a hm2b rfl rfl rfl hd2a hd2b
  set mpa := if m1 ≤ 2 then m1 + 9 else m1 - 3 with hmpa
  set mpb := if m2 ≤ 2 then m2 + 9 else m2 - 3 with hmpb
  set Ta := (153 * mpa + 2) / 5 with hTa
  set Tb := (153 * mpb + 2) / 5 with hTb
  set ca := if m1 ≤ 2 then -1 else 0 with hca
  set cb := if m2 ≤ 2 then -1 else 0 with hcb
  rw [g2d_eq' y1 m1 d1 ca Ta (by omega) (by omega) (by omega) (by omega) hca (by rw [hTa, hmpa]),
    g2d_eq' y2 m2 d2 cb Tb (by omega) (by omega) (by omega) (by omega) hcb (by rw [hTb, hmpb])]
  obtain ⟨a1, a2, a3⟩ := J_char (y1 + 100100 + ca) Ta d1 (by omega) (by omega) (by omega)
    (by omega) hd1a (by omega) hv1
  obtain ⟨b1, b2, b3⟩ := J_char (y2 + 100100 + cb) Tb d2 (by omega) (by omega) (by omega)
    (by omega) hd2a (by omega) hv2
  -- reduce to a Jof comparison
  have key : Jof (g2dE (y1 + 100100 + ca) Ta d1) < Jof (g2dE (y2 + 100100 + cb) Tb d2) := by
    -- lexicographic order on (March-year, T + day)
    have hYS : (y1 + 100100 + ca < y2 + 100100 + cb) ∨
        (y1 + 100100 + ca = y2 + 100100 + cb ∧ Ta + d1 < Tb + d2) := by
      obtain ⟨L1a, L1b, L1f2, L1f30⟩ := gregMonthLength_facts y1 m1
      rcases hlex with h | ⟨hy, h⟩
      · -- different calendar years
        rcases hmc1 with ⟨u1, u2, u3⟩ | ⟨u1, u2, u3⟩ <;> rcases hmc2 with ⟨w1, w2, w3⟩ | ⟨w1, w2, w3⟩
        · left; omega
        · left; omega
        · -- m1 ≥ 3, m2 ≤ 2: same March-year possible when y2 = y1 + 1
          rcases (by omega : y1 + 100100 + 0 < y2 + 100100 + -1 ∨ y2 = y1 + 1) with h2 | h2
          · left; omega
          · right
            constructor
            · omega
            · -- SA ≤ 275 + 31 = 306 < 307 ≤ SB
              have : mpa ≤ 9 := by omega
              omega
        · left; omega
      · rcases h with h | ⟨hm, hd⟩
        · -- same year, m1 < m2
          rcases hmc1 with ⟨u1, u2, u3⟩ | ⟨u1, u2, u3⟩ <;> rcases hmc2 with ⟨w1, w2, w3⟩ | ⟨w1, w2, w3⟩
          · -- both ≤ 2
            right
            refine ⟨by omega, ?_⟩
            -- mpa < mpb; d1 ≤ L(m1) ≤ T(mpa+1) - Ta ≤ Tb - Ta
            obtain ⟨Tn, hTna, hTnb⟩ : ∃ t, 5 * t ≤ 153 * (mpa + 1) + 2 ∧
                153 * (mpa + 1) + 2 < 5 * t + 5 :=
              ⟨(153 * (mpa + 1) + 2) / 5, by omega, by omega⟩
            have hL : d1 ≤ Tn - Ta := by
              -- m1 = 1 (31 days), since m1 < m2 ≤ 2
              have hm11 : m1 = 1 := by omega
              have : d1 ≤ 31 := by omega
              omega
            have : Tn ≤ Tb := by omega
            omega
          · left; omega
          · omega
          · -- both ≥ 3
            right
            refine ⟨by omega, ?_⟩
            obtain ⟨Tn, hTna, hTnb⟩ : ∃ t, 5 * t ≤ 153 * (mpa + 1) + 2 ∧
                153 * (mpa + 1) + 2 < 5 * t + 5 :=
              ⟨(153 * (mpa + 1) + 2) / 5, by omega, by omega⟩
            have hL : d1 ≤ Tn - Ta := by
              have h3 : 3 ≤ m1 := by omega
              have h11 : m1 ≤ 11 := by omega
              interval_cases m1 <;> omega
            have : Tn ≤ Tb := by omega
            omega
        · -- same month, d1 < d2
          right
          rcases hmc1 with ⟨u1, u2, u3⟩ | ⟨u1, u2, u3⟩ <;> rcases hmc2 with ⟨w1, w2, w3⟩ | ⟨w1, w2, w3⟩ <;>
            omega
    rcases hYS with h | ⟨h, h2⟩
    · omega
    · omega
  have mono := Jof_mono (g2dE (y2 + 100100 + cb) Tb d2) (g2dE (y1 + 100100 + ca) Ta d1)
  omega

/-- Re-encoding the decode of a March-based day: `g2d ∘ d2g` is the identity on
`g2dE Y 0 d` points with a valid day-of-March-year. -/
theorem g2d_d2g_point (Y d : Int) (hY1 : 100100 ≤ Y) (hY2 : Y ≤ 110000) (hd1 : 1 ≤ d)
    (hv : d ≤ 365 ∨ (d = 366 ∧ Y % 4 = 3 ∧ (Y % 100 ≠ 99 ∨ Y % 400 = 99))) :
    g2d (d2g (g2dE Y 0 d)).gy (d2g (g2dE Y 0 d)).gm (d2g (g2dE Y 0 d)).gd = g2dE Y 0 d := by
  have hd2 : d ≤ 366 := by rcases hv with h | ⟨h, -⟩ <;> omega
  set mp := (5 * d - 3) / 153 with hmp
  set T := (153 * mp + 2) / 5 with hT
  have hmp1 : 0 ≤ mp := by omega
  have hmp2 : mp ≤ 11 := by omega
  have hu1 : 5 * T ≤ 153 * mp + 2 := by omega
  have hu2 : 153 * mp + 2 < 5 * T + 5 := by omega
  have hgd1 : 1 ≤ d - T := by omega
  have hgd2 : 5 * T + 5 * (d - T) + 303 < 153 * (mp + 3) := by omega
  have hsp : g2dE Y 0 d = g2dE Y T (d - T) := by
    rw [g2dE_split Y T (d - T)]
    congr 1
    omega
  have hv' : T + (d - T) ≤ 365 ∨ (T + (d - T) = 366 ∧ Y % 4 = 3 ∧
      (Y % 100 ≠ 99 ∨ Y % 400 = 99)) := by
    rcases hv with h | ⟨h, h2⟩
    · exact Or.inl (by omega)
    · exact Or.inr ⟨by omega, h2⟩
  obtain ⟨j1, j2, j3⟩ := J_char Y T (d - T) (by omega) hY2 (by omega) (by omega) hgd1
    (by omega) hv'
  have hchar := d2gE_char (g2dE Y T (d - T)) Y mp T (d - T) hu1 hu2 hmp1 hmp2 hgd1 hgd2 j1 j2 j3
  rw [hsp, d2g_eq _ (by unfold g2dE; omega) (by unfold g2dE; omega), hchar]
  dsimp only
  by_cases hgm : (mp + 2) % 12 + 1 ≤ 2
  · rw [g2d_eq' _ _ (d - T) (-1) T (by omega) (by omega) (by omega) (by omega)
      (by rw [if_pos hgm])
      (by rw [if_pos hgm, show (mp + 2) % 12 + 1 + 9 = mp from by omega])]
    rw [if_pos hgm, show Y - 100100 + 1 + 100100 + -1 = Y from by ring]
  · rw [g2d_eq' _ _ (d - T) 0 T (by omega) (by omega) (by omega) (by omega)
      (by rw [if_neg hgm])
      (by rw [if_neg hgm, show (mp + 2) % 12 + 1 - 3 = mp from by omega])]
    rw [if_neg hgm, show Y - 100100 + 0 + 100100 + 0 = Y from by ring]

theorem g2d_day (gy gm gd : Int) : g2d gy gm gd = g2d gy gm 0 + gd := by
  unfold g2d
  ring

/-- `g2d ∘ d2g` is the identity on any day of a located Jalaali year. -/
theorem g2d_d2g_located (jy t : Int) (h1 : -61 ≤ jy) (h2 : jy ≤ 3176) (ht0 : 0 ≤ t)
    (ht1 : t ≤ 364 + (if leapOf jy = 0 then 1 else 0)) :
    g2d (d2g (g2dE (jy + 100721) 0 (marchOf jy) + t)).gy
        (d2g (g2dE (jy + 100721) 0 (marchOf jy) + t)).gm
        (d2g (g2dE (jy + 100721) 0 (marchOf jy) + t)).gd
      = g2dE (jy + 100721) 0 (marchOf jy) + t := by
  obtain ⟨hm19, hm22⟩ := marchOf_bounds jy h1 (by omega)
  have hlfb : (if leapOf jy = 0 then (1:Int) else 0) = 0 ∨
      (if leapOf jy = 0 then (1:Int) else 0) = 1 := by
    split_ifs <;> simp
  have hne : g2dE (jy + 100721) 0 (marchOf jy) + t = g2dE (jy + 100721) 0 (marchOf jy + t) :=
    (g2dE_add (jy + 100721) 0 (marchOf jy) t).symm
  rw [hne]
  by_cases hBc : marchOf jy + t ≤ 365 + (if gLeapB (jy + 100721) then 1 else 0)
  · have hv : marchOf jy + t ≤ 365 ∨ (marchOf jy + t = 366 ∧ (jy + 100721) % 4 = 3 ∧
        ((jy + 100721) % 100 ≠ 99 ∨ (jy + 100721) % 400 = 99)) := by
      by_cases hg : gLeapB (jy + 100721)
      · rcases le_or_lt (marchOf jy + t) 365 with hx | hx
        · exact Or.inl hx
        · rw [if_pos hg] at hBc
          exact Or.inr ⟨by omega, hg.1, hg.2⟩
      · rw [if_neg hg] at hBc
        exact Or.inl (by omega)
    exact g2d_d2g_point (jy + 100721) (marchOf jy + t) (by omega) (by omega) (by omega) hv
  · have hglb : (if gLeapB (jy + 100721) then (1:Int) else 0) = 0 ∨
        (if gLeapB (jy + 100721) then (1:Int) else 0) = 1 := by
      split_ifs <;> simp
    have hreb : g2dE (jy + 100721) 0 (marchOf jy + t)
        = g2dE (jy + 1 + 100721) 0
            (marchOf jy + t - 365 - (if gLeapB (jy + 100721) then 1 else 0)) := by
      have hG2 := Gstep (jy + 100721)
        (marchOf jy + t - 365 - (if gLeapB (jy + 100721) then 1 else 0))
      have e8 : jy + 100721 + 1 = jy + 1 + 100721 := by ring
      rw [e8] at hG2
      rw [hG2]
      by_cases hg : gLeapB (jy + 100721)
      · rw [if_pos hg]
        rw [show marchOf jy + t = (marchOf jy + t - 365 - 1) + 366 from by ring, g2dE_add]
        ring
      · rw [if_neg hg]
        rw [show marchOf jy + t = (marchOf jy + t - 365 - 0) + 365 from by ring, g2dE_add]
        ring
    rw [hreb]
    exact g2d_d2g_point (jy + 1 + 100721)
      (marchOf jy + t - 365 - (if gLeapB (jy + 100721) then 1 else 0))
      (by omega) (by omega) (by omega) (Or.inl (by omega))

/-- Every JDN below the end of year `jyU` and at/after Farvardin 1 of -61 lies in
some supported Jalaali year. -/
theorem locate : ∀ jyU : Int, -61 ≤ jyU → jyU ≤ 3176 → ∀ n : Int,
    g2dE (-61 + 100721) 0 (marchOf (-61)) ≤ n →
    n < g2dE (jyU + 100721) 0 (marchOf jyU) + 365 + (if leapOf jyU = 0 then 1 else 0) →
    ∃ jy t, -61 ≤ jy ∧ jy ≤ jyU ∧ 0 ≤ t ∧ t ≤ 364 + (if leapOf jy = 0 then 1 else 0) ∧
      n = g2dE (jy + 100721) 0 (marchOf jy) + t := by
  refine Int.le_induction ?_ ?_
  · intro _ n hlo hhi
    exact ⟨-61, n - g2dE (-61 + 100721) 0 (marchOf (-61)), le_refl _, le_refl _, by omega,
      by omega, by ring⟩
  · intro jyU hU ih hk n hlo hhi
    by_cases hcase : n < g2dE (jyU + 100721) 0 (marchOf jyU) + 365 +
        (if leapOf jyU = 0 then 1 else 0)
    · obtain ⟨jy, t, a1, a2, a3, a4, a5⟩ := ih (by omega) n hlo hcase
      exact ⟨jy, t, a1, by omega, a3, a4, a5⟩
    · have hstep := jdn1_step jyU hU (by omega)
      exact ⟨jyU + 1, n - g2dE (jyU + 1 + 100721) 0 (marchOf (jyU + 1)), by omega, le_refl _,
        by omega, by omega, by ring⟩

/-- `jalaaliMonthLength` in the supported range, with the leap flag explicit. -/
theorem jalaaliMonthLength_eq (jy jm : Int) (h1 : -61 ≤ jy) (h2 : jy ≤ 3177) :
    jalaaliMonthLength jy jm = some (if jm ≤ 6 then 31 else if jm ≤ 11 then 30
      else 29 + (if leapOf jy = 0 then 1 else 0)) := by
  unfold jalaaliMonthLength isLeapJalaaliYear
  rcases le_or_lt jm 6 with h | h
  · rw [if_pos h, if_pos h]
  · rw [if_neg (by omega : ¬ jm ≤ 6), if_neg (by omega : ¬ jm ≤ 6)]
    rcases le_or_lt jm 11 with h3 | h3
    · rw [if_pos h3, if_pos h3]
    · rw [if_neg (by omega : ¬ jm ≤ 11), if_neg (by omega : ¬ jm ≤ 11),
        jalCal_false_eq jy h1 (by omega)]
      simp only [Option.map_some']
      by_cases hl : leapOf jy = 0
      · rw [if_pos hl]
        norm_num [hl]
      · rw [if_neg hl]
        have : (leapOf jy == 0) = false := by
          simp only [beq_eq_false_iff_ne, ne_eq]
          exact hl
        rw [this]
        norm_num

/-- Jalaali→Gregorian→Jalaali round trip over supported Jalaali dates. -/
theorem rt_jal (jy jm jd len : Int) (h1 : -61 ≤ jy) (h2 : jy ≤ 3176) (hm1 : 1 ≤ jm)
    (hm2 : jm ≤ 12) (hd1 : 1 ≤ jd) (hlen : jalaaliMonthLength jy jm = some len)
    (hd2 : jd ≤ len) :
    ∃ g, toGregorian jy jm jd = some g ∧ toJalaali g.gy g.gm g.gd = some ⟨jy, jm, jd⟩ := by
  have hml := jalaaliMonthLength_eq jy jm h1 (by omega)
  rw [hml] at hlen
  have hlen' := Option.some.inj hlen
  have hlfb : (if leapOf jy = 0 then (1:Int) else 0) = 0 ∨
      (if leapOf jy = 0 then (1:Int) else 0) = 1 := by
    split_ifs <;> simp
  have hj2d := j2d_eq jy jm jd h1 (by omega) hm1 hm2
  rcases le_or_lt jm 6 with hj6 | hj6
  · have hlen6 : len = 31 := by rw [if_pos hj6] at hlen'; exact hlen'.symm
    rw [if_pos hj6] at hj2d
    have hchar := d2j_char jy ((jm - 1) * 31 - 0 * (jm - 7) + jd - 1) h1 h2 (by omega) (by omega)
    have hloc := g2d_d2g_located jy ((jm - 1) * 31 - 0 * (jm - 7) + jd - 1) h1 h2 (by omega)
      (by omega)
    refine ⟨d2g (g2dE (jy + 100721) 0 (marchOf jy) + ((jm - 1) * 31 - 0 * (jm - 7) + jd - 1)),
      ?_, ?_⟩
    · unfold toGregorian
      rw [hj2d]
      simp only [Option.map_some']
    · unfold toJalaali
      rw [hloc, hchar, if_pos (show (jm - 1) * 31 - 0 * (jm - 7) + jd - 1 ≤ 185 from by omega)]
      simp only [Option.some.injEq, JalaaliObject.mk.injEq]
      refine ⟨trivial, by omega, by omega⟩
  · have hlen11 : (jm ≤ 11 ∧ len = 30) ∨ (12 ≤ jm ∧ len = 29 +
        (if leapOf jy = 0 then 1 else 0)) := by
      rcases le_or_lt jm 11 with h3 | h3
      · rw [if_neg (by omega), if_pos h3] at hlen'
        exact Or.inl ⟨h3, hlen'.symm⟩
      · rw [if_neg (by omega), if_neg (by omega)] at hlen'
        exact Or.inr ⟨by omega, hlen'.symm⟩
    rw [if_neg (by omega : ¬ jm ≤ 6)] at hj2d
    have htb0 : 186 ≤ (jm - 1) * 31 - 1 * (jm - 7) + jd - 1 := by omega
    have htb1 : (jm - 1) * 31 - 1 * (jm - 7) + jd - 1 ≤ 364 +
        (if leapOf jy = 0 then 1 else 0) := by
      rcases hlen11 with ⟨h3, h4⟩ | ⟨h3, h4⟩ <;> omega
    have hchar := d2j_char jy ((jm - 1) * 31 - 1 * (jm - 7) + jd - 1) h1 h2 (by omega) htb1
    have hloc := g2d_d2g_located jy ((jm - 1) * 31 - 1 * (jm - 7) + jd - 1) h1 h2 (by omega) htb1
    refine ⟨d2g (g2dE (jy + 100721) 0 (marchOf jy) + ((jm - 1) * 31 - 1 * (jm - 7) + jd - 1)),
      ?_, ?_⟩
    · unfold toGregorian
      rw [hj2d]
      simp only [Option.map_some']
    · unfold toJalaali
      rw [hloc, hchar,
        if_neg (show ¬ (jm - 1) * 31 - 1 * (jm - 7) + jd - 1 ≤ 185 from by omega)]
      simp only [Option.some.injEq, JalaaliObject.mk.injEq]
      refine ⟨trivial, by omega, by omega⟩

/-- Gregorian→Jalaali→Gregorian round trip over Gregorian dates inside the
supported Jalaali window. -/
theorem rt_greg (gy gm gd : Int) (hy1 : 561 ≤ gy) (hy2 : gy ≤ 3797) (hm1 : 1 ≤ gm)
    (hm2 : gm ≤ 12) (hd1 : 1 ≤ gd) (hd2 : gd ≤ gregMonthLength gy gm) :
    ∃ j, toJalaali gy gm gd = some j ∧ toGregorian j.jy j.jm j.jd = some ⟨gy, gm, gd⟩ := by
  have hmbL := marchOf_bounds (-61) (by norm_num) (by norm_num)
  have hlow1 : g2d 560 3 22 < g2d gy gm gd :=
    g2d_lt 560 3 22 gy gm gd (by norm_num) (by norm_num) (by omega) (by omega)
      (by norm_num) (by norm_num) (by norm_num) (by decide)
      hm1 hm2 hd1 hd2 (Or.inl (by omega))
  have hlow2 : g2dE (-61 + 100721) 0 (marchOf (-61)) ≤ g2d 560 3 22 := by
    rw [← jdn1_g2d (-61) (by norm_num) (by norm_num),
      show (-61:Int) + 621 = 560 from by norm_num,
      g2d_day 560 3 (marchOf (-61)), g2d_day 560 3 22]
    omega
  have hmbH := marchOf_bounds 3177 (by norm_num) (by norm_num)
  have hhi1 : g2d gy gm gd < g2d 3798 3 19 :=
    g2d_lt gy gm gd 3798 3 19 (by omega) (by omega) (by norm_num) (by norm_num) hm1 hm2 hd1 hd2
      (by norm_num) (by norm_num) (by norm_num) (by decide) (Or.inl (by omega))
  have hhi2 : g2d 3798 3 19 ≤ g2dE (3177 + 100721) 0 (marchOf 3177) := by
    rw [← jdn1_g2d 3177 (by norm_num) (by norm_num),
      show (3177:Int) + 621 = 3798 from by norm_num,
      g2d_day 3798 3 (marchOf 3177), g2d_day 3798 3 19]
    omega
  have hstep := jdn1_step 3176 (by norm_num) (by norm_num)
  rw [show (3176:Int) + 1 = 3177 from by norm_num] at hstep
  obtain ⟨jy, t, hj1, hj2, ht0, ht1, hn⟩ := locate 3176 (by norm_num) (by norm_num)
    (g2d gy gm gd)
    (by omega) (by omega)
  have hchar := d2j_char jy t hj1 hj2 ht0 ht1
  have hlfb : (if leapOf jy = 0 then (1:Int) else 0) = 0 ∨
      (if leapOf jy = 0 then (1:Int) else 0) = 1 := by
    split_ifs <;> simp
  rcases le_or_lt t 185 with hts | hts
  · refine ⟨⟨jy, 1 + t / 31, t % 31 + 1⟩, ?_, ?_⟩
    · unfold toJalaali
      rw [hn, hchar, if_pos hts]
    · dsimp only
      have hj2dv := j2d_eq jy (1 + t / 31) (t % 31 + 1) hj1 (by omega) (by omega) (by omega)
      rw [if_pos (show 1 + t / 31 ≤ 6 from by omega)] at hj2dv
      rw [show (1 + t / 31 - 1) * 31 - 0 * (1 + t / 31 - 7) + (t % 31 + 1) - 1 = t
        from by omega] at hj2dv
      unfold toGregorian
      rw [hj2dv]
      simp only [Option.map_some']
      rw [← hn, d2g_g2d gy gm gd (by omega) (by omega) hm1 hm2 hd1 hd2]
  · refine ⟨⟨jy, 7 + (t - 186) / 30, (t - 186) % 30 + 1⟩, ?_, ?_⟩
    · unfold toJalaali
      rw [hn, hchar, if_neg (not_le.mpr hts)]
    · dsimp only
      have hj2dv := j2d_eq jy (7 + (t - 186) / 30) ((t - 186) % 30 + 1) hj1 (by omega)
        (by omega) (by omega)
      rw [if_neg (show ¬ 7 + (t - 186) / 30 ≤ 6 from by omega)] at hj2dv
      rw [show (7 + (t - 186) / 30 - 1) * 31 - 1 * (7 + (t - 186) / 30 - 7) +
        ((t - 186) % 30 + 1) - 1 = t from by omega] at hj2dv
      unfold toGregorian
      rw [hj2dv]
      simp only [Option.map_some']
      rw [← hn, d2g_g2d gy gm gd (by omega) (by omega) hm1 hm2 hd1 hd2]


/-- Reading a Jalaali component with an empty cache re-derives it from the
current Gregorian fields. -/
theorem fresh_read (s : JalaaliDate) (h : s.cache = none) :
    s.jy = (toJalaali (getFullYear s.time) (getMonth0 s.time + 1) (getDate s.time)).map
        JalaaliObject.jy ∧
    s.jm = (toJalaali (getFullYear s.time) (getMonth0 s.time + 1) (getDate s.time)).map
        JalaaliObject.jm ∧
    s.jd = (toJalaali (getFullYear s.time) (getMonth0 s.time + 1) (getDate s.time)).map
        JalaaliObject.jd := by
  unfold JalaaliDate.jy JalaaliDate.jm JalaaliDate.jd JalaaliDate.hydrate
  rw [h]
  cases htj : toJalaali (getFullYear s.time) (getMonth0 s.time + 1) (getDate s.time) <;> simp

/-- Claim C5: every native mutator override empties the cache, an empty
cache makes the next `jy`/`jm`/`jd` read re-derive from the current
Gregorian fields, and the spec's scenario (construct 1402-08-05, set the
Gregorian year to 2024, read `jy = 1403`) holds. -/
theorem claim_C5 :
    (∀ (s : JalaaliDate) (y m0 d h mi sec ms tv : Int),
      (s.setFullYear1 y).cache = none ∧ (s.setMonth1 m0).cache = none ∧
      (s.setDate d).cache = none ∧ (s.setHours1 h).cache = none ∧
      (s.setMinutes1 mi).cache = none ∧ (s.setSeconds1 sec).cache = none ∧
      (s.setMilliseconds1 ms).cache = none ∧ (s.setTime tv).cache = none) ∧
    (∀ s : JalaaliDate, s.cache = none →
      s.jy = (toJalaali (getFullYear s.time) (getMonth0 s.time + 1) (getDate s.time)).map
          JalaaliObject.jy ∧
      s.jm = (toJalaali (getFullYear s.time) (getMonth0 s.time + 1) (getDate s.time)).map
          JalaaliObject.jm ∧
      s.jd = (toJalaali (getFullYear s.time) (getMonth0 s.time + 1) (getDate s.time)).map
          JalaaliObject.jd) ∧
    ((JalaaliDate.ofJalaali 1402 8 5).map (fun s => (s.setFullYear1 2024).jy)
      = some (some 1403)) := by
  exact ⟨fun s y m0 d h mi sec ms tv => ⟨rfl, rfl, rfl, rfl, rfl, rfl, rfl, rfl⟩,
    fun s h => fresh_read s h, by decide⟩

/-- Claim C6 (corrected): `setJalaaliYear`, `setJalaaliMonth` without an
explicit day, and the multi-field `set` clamp the day and store exactly the
applied triple in the cache, but `setJalaaliDate` (and `setJalaaliMonth`
with an explicit day) store the raw, unclamped day — refuting the claim's
"every setter clamps" phrasing (see the counterexample). -/
theorem claim_C6 :
    (∀ (s s₁ : JalaaliDate) (c : JalaaliObject) (year maxDays : Int) (s' : JalaaliDate),
      s.hydrate = some (c, s₁) → jalaaliMonthLength year c.jm = some maxDays →
      s.setJalaaliYear year = some s' → s'.cache = some ⟨year, c.jm, min c.jd maxDays⟩) ∧
    (∀ (s s₁ : JalaaliDate) (c : JalaaliObject) (month maxDays : Int) (s' : JalaaliDate),
      s.hydrate = some (c, s₁) → jalaaliMonthLength c.jy month = some maxDays →
      s.setJalaaliMonth month none = some s' →
      s'.cache = some ⟨c.jy, month, min c.jd maxDays⟩) ∧
    (∀ (s s₁ : JalaaliDate) (c : JalaaliObject) (month day : Int) (s' : JalaaliDate),
      s.hydrate = some (c, s₁) →
      s.setJalaaliMonth month (some day) = some s' → s'.cache = some ⟨c.jy, month, day⟩) ∧
    (∀ (s s₁ : JalaaliDate) (c : JalaaliObject) (day : Int) (s' : JalaaliDate),
      s.hydrate = some (c, s₁) →
      s.setJalaaliDate day = some s' → s'.cache = some ⟨c.jy, c.jm, day⟩) ∧
    ((JalaaliDate.ofJalaali 1402 6 31).map
        (fun s => ((s.set { month := some 7 }).isOk, (s.set { month := some 7 }).state.cache))
      = some (true, some ⟨1402, 7, 30⟩)) := by
  refine ⟨?_, ?_, ?_, ?_, by decide⟩
  · intro s s₁ c year maxDays s' hh hml hset
    simp only [JalaaliDate.setJalaaliYear, hh, hml, Option.some_bind] at hset
    cases htg : toGregorian year c.jm (min c.jd maxDays) with
    | none => rw [htg] at hset; simp at hset
    | some g =>
      rw [htg] at hset
      simp only [Option.map_some', Option.some.injEq] at hset
      rw [← hset]
  · intro s s₁ c month maxDays s' hh hml hset
    simp only [JalaaliDate.setJalaaliMonth, hh, hml, Option.some_bind, Option.getD_none]
      at hset
    cases htg : toGregorian c.jy month (min c.jd maxDays) with
    | none => rw [htg] at hset; simp at hset
    | some g =>
      rw [htg] at hset
      simp only [Option.map_some', Option.some.injEq] at hset
      rw [← hset]
  · intro s s₁ c month day s' hh hset
    simp only [JalaaliDate.setJalaaliMonth, hh] at hset
    cases hml : jalaaliMonthLength c.jy month with
    | none => rw [hml] at hset; simp at hset
    | some maxDays =>
      rw [hml] at hset
      simp only [Option.some_bind, Option.getD_some] at hset
      cases htg : toGregorian c.jy month day with
      | none => rw [htg] at hset; simp at hset
      | some g =>
        rw [htg] at hset
        simp only [Option.map_some', Option.some.injEq] at hset
        rw [← hset]
  · intro s s₁ c day s' hh hset
    simp only [JalaaliDate.setJalaaliDate, hh] at hset
    cases htg : toGregorian c.jy c.jm day with
    | none => rw [htg] at hset; simp at hset
    | some g =>
      rw [htg] at hset
      simp only [Option.map_some', Option.some.injEq] at hset
      rw [← hset]

/-- Claim C7: the spec's three `add` boundary cases (day overflow into
month 7, month addition with day clamping, and day overflow into the next
year after a non-leap Esfand). -/
theorem claim_C7 :
    ((JalaaliDate.ofJalaali 1402 6 31).bind fun s => (s.add 1 AddUnit.day).map
        fun s2 => (s2.jy, s2.jm, s2.jd)) = some (some 1402, some 7, some 1) ∧
    ((JalaaliDate.ofJalaali 1402 6 31).bind fun s => (s.add 1 AddUnit.month).map
        fun s2 => (s2.jy, s2.jm, s2.jd)) = some (some 1402, some 7, some 30) ∧
    ((JalaaliDate.ofJalaali 1402 12 29).bind fun s => (s.add 1 AddUnit.day).map
        fun s2 => (s2.jy, s2.jm, s2.jd)) = some (some 1403, some 1, some 1) := by
  refine ⟨by decide, by decide, by decide⟩

/-- Claim C9: `set` applies time-of-day fields and invalidates the cache
before the ambiguous-calendars check, so the error is thrown with the time
already mutated; concretely, on 1402-08-05 a call with `hour`, `jy` and `gy`
throws with the timestamp changed and the cache empty. -/
theorem claim_C9 :
    (∀ (s : JalaaliDate) (h jyv gyv : Int),
      s.set { hour := some h, jy := some jyv, gy := some gyv } = SetResult.ambiguous
        ⟨dateSetHours s.time h (getMinutes s.time) (getSeconds s.time) (getMilliseconds s.time),
          none⟩) ∧
    ((JalaaliDate.ofJalaali 1402 8 5).map (fun s =>
        s.set { hour := some 7, jy := some 1403, gy := some 2024 })
      = some (SetResult.ambiguous ⟨1698390000000, none⟩)) ∧
    ((JalaaliDate.ofJalaali 1402 8 5).map JalaaliDate.time = some 1698364800000) ∧
    ((1698390000000 : Int) ≠ 1698364800000) := by
  refine ⟨fun s h jyv gyv => rfl, by decide, by decide, by decide⟩

/-- Claim C6, counterexample: `setJalaaliDate 31` on 1402-07-01 stores
`jd = 31` although month 7 of 1402 has 30 days; the underlying date rolls
to 1402-08-01, so the cached triple is neither clamped nor re-derived. -/
theorem claim_C6_cex :
    ((JalaaliDate.ofJalaali 1402 7 1).bind fun s => (s.setJalaaliDate 31).map
        fun s2 => s2.cache) = some (some ⟨1402, 7, 31⟩) ∧
    jalaaliMonthLength 1402 7 = some 30 ∧
    ((JalaaliDate.ofJalaali 1402 7 1).bind fun s => (s.setJalaaliDate 31).map fun s2 =>
        toJalaali (getFullYear s2.time) (getMonth0 s2.time + 1) (getDate s2.time))
      = some (some ⟨1402, 8, 1⟩) := by
  refine ⟨by decide, by decide, by decide⟩

/-- Claim C1 (corrected): the Jalaali→Gregorian→Jalaali round trip holds as
stated for every valid Jalaali date with `jy ∈ [-61, 3177)`, and the
Gregorian→Jalaali→Gregorian round trip holds for valid Gregorian dates once
the Gregorian year is also bounded away from the Int32 wrap-around
(`561 ≤ gy ≤ 3797`, covering the whole supported Jalaali window); the
original unrestricted Gregorian clause is refuted by the counterexample. -/
theorem claim_C1 :
    (∀ gy gm gd : Int, 561 ≤ gy → gy ≤ 3797 → 1 ≤ gm → gm ≤ 12 → 1 ≤ gd →
      gd ≤ gregMonthLength gy gm →
      ∃ j, toJalaali gy gm gd = some j ∧ toGregorian j.jy j.jm j.jd = some ⟨gy, gm, gd⟩) ∧
    (∀ jy jm jd len : Int, -61 ≤ jy → jy ≤ 3176 → 1 ≤ jm → jm ≤ 12 → 1 ≤ jd →
      jalaaliMonthLength jy jm = some len → jd ≤ len →
      ∃ g, toGregorian jy jm jd = some g ∧ toJalaali g.gy g.gm g.gd = some ⟨jy, jm, jd⟩) :=
  ⟨fun gy gm gd h1 h2 h3 h4 h5 h6 => rt_greg gy gm gd h1 h2 h3 h4 h5 h6,
   fun jy jm jd len h1 h2 h3 h4 h5 h6 h7 => rt_jal jy jm jd len h1 h2 h3 h4 h5 h6 h7⟩

/-- Claim C1, witness: both round trips at the spec's own fixed points. -/
theorem claim_C1_witness :
    (∃ j, toJalaali 2023 10 27 = some j ∧ toGregorian j.jy j.jm j.jd = some ⟨2023, 10, 27⟩) ∧
    (∃ g, toGregorian 1402 8 5 = some g ∧ toJalaali g.gy g.gm g.gd = some ⟨1402, 8, 5⟩) :=
  ⟨claim_C1.1 2023 10 27 (by norm_num) (by norm_num) (by norm_num) (by norm_num) (by norm_num)
      (by decide),
   claim_C1.2 1402 8 5 30 (by norm_num) (by norm_num) (by norm_num) (by norm_num) (by norm_num)
      (by decide) (by norm_num)⟩

/-- Claim C1, counterexample to the original Gregorian clause:
`toJalaali 11759781 6 15` succeeds (Int32 wrap-around inside `g2d`) and its
Jalaali year `-61` lies in the supported table range, yet the round trip
returns 560-05-26, not the original date. -/
theorem claim_C1_cex :
    toJalaali 11759781 6 15 = some ⟨-61, 3, 6⟩ ∧
    (-61 : Int) < 3178 ∧ (-61 : Int) ≥ -61 ∧
    toGregorian (-61) 3 6 = some ⟨560, 5, 26⟩ ∧
    (⟨560, 5, 26⟩ : GregorianObject) ≠ ⟨11759781, 6, 15⟩ := by
  refine ⟨by decide, by decide, by decide, by decide, by decide⟩

/-- Claim C2: `d2g` inverts `g2d` on every valid date of the supported
range, and `g2d` is strictly increasing in calendar order. -/
theorem claim_C2 :
    (∀ gy gm gd : Int, 400 ≤ gy → gy ≤ 3900 → 1 ≤ gm → gm ≤ 12 → 1 ≤ gd →
      gd ≤ gregMonthLength gy gm → d2g (g2d gy gm gd) = ⟨gy, gm, gd⟩) ∧
    (∀ y1 m1 d1 y2 m2 d2 : Int, 400 ≤ y1 → y1 ≤ 3900 → 400 ≤ y2 → y2 ≤ 3900 →
      1 ≤ m1 → m1 ≤ 12 → 1 ≤ d1 → d1 ≤ gregMonthLength y1 m1 →
      1 ≤ m2 → m2 ≤ 12 → 1 ≤ d2 → d2 ≤ gregMonthLength y2 m2 →
      (y1 < y2 ∨ (y1 = y2 ∧ (m1 < m2 ∨ (m1 = m2 ∧ d1 < d2)))) →
      g2d y1 m1 d1 < g2d y2 m2 d2) :=
  ⟨fun gy gm gd h1 h2 h3 h4 h5 h6 => d2g_g2d gy gm gd h1 h2 h3 h4 h5 h6,
   fun y1 m1 d1 y2 m2 d2 a1 a2 a3 a4 a5 a6 a7 a8 a9 a10 a11 a12 a13 =>
     g2d_lt y1 m1 d1 y2 m2 d2 a1 a2 a3 a4 a5 a6 a7 a8 a9 a10 a11 a12 a13⟩

/-- Claim C2, witness: both parts at the concrete leap day 2024-02-29. -/
theorem claim_C2_witness :
    d2g (g2d 2024 2 29) = ⟨2024, 2, 29⟩ ∧ g2d 2024 2 29 < g2d 2024 3 1 :=
  ⟨claim_C2.1 2024 2 29 (by norm_num) (by norm_num) (by norm_num) (by norm_num) (by norm_num)
      (by decide),
   claim_C2.2 2024 2 29 2024 3 1 (by norm_num) (by norm_num) (by norm_num) (by norm_num)
      (by norm_num) (by norm_num) (by norm_num) (by decide) (by norm_num) (by norm_num)
      (by norm_num) (by decide) (Or.inr ⟨rfl, Or.inl (by norm_num)⟩)⟩

/-- Claim C3: `jalCal` fails exactly when the year is outside `[-61, 3178)`
— in particular at -62 and 3178 but not at -61 or 3177 — and this one error
propagates through `isLeapJalaaliYear`, `toGregorian` (requested year) and
`toJalaali` (derived year); `jalaaliMonthLength` fails exactly for `jm ≥ 12`
with the year out of range. The equivalences also show no other error
condition exists in the core conversions. -/
theorem claim_C3 :
    (∀ (jy : Int) (wl : Bool), jalCal jy wl = none ↔ (jy < -61 ∨ 3178 ≤ jy)) ∧
    (jalCal (-62) false = none ∧ jalCal 3178 false = none ∧
      jalCal (-61) false ≠ none ∧ jalCal 3177 false ≠ none) ∧
    (∀ jy : Int, isLeapJalaaliYear jy = none ↔ (jy < -61 ∨ 3178 ≤ jy)) ∧
    (∀ jy jm jd : Int, toGregorian jy jm jd = none ↔ (jy < -61 ∨ 3178 ≤ jy)) ∧
    (∀ jy jm : Int, jalaaliMonthLength jy jm = none ↔ (12 ≤ jm ∧ (jy < -61 ∨ 3178 ≤ jy))) ∧
    (∀ gy gm gd : Int, toJalaali gy gm gd = none ↔
      ((d2g (g2d gy gm gd)).gy - 621 < -61 ∨ 3178 ≤ (d2g (g2d gy gm gd)).gy - 621)) := by
  refine ⟨jalCal_none_iff, ⟨by decide, by decide, by decide, by decide⟩, ?_, ?_, ?_, ?_⟩
  · intro jy
    unfold isLeapJalaaliYear
    rw [Option.map_eq_none']
    exact jalCal_none_iff jy false
  · intro jy jm jd
    unfold toGregorian j2d
    rw [Option.map_eq_none', Option.map_eq_none']
    exact jalCal_none_iff jy true
  · intro jy jm
    unfold jalaaliMonthLength isLeapJalaaliYear
    rcases le_or_lt jm 6 with h | h
    · rw [if_pos h]
      constructor
      · intro hx; exact absurd hx (by simp)
      · rintro ⟨hx, -⟩; omega
    · rw [if_neg (by omega : ¬ jm ≤ 6)]
      rcases le_or_lt jm 11 with h3 | h3
      · rw [if_pos h3]
        constructor
        · intro hx; exact absurd hx (by simp)
        · rintro ⟨hx, -⟩; omega
      · rw [if_neg (by omega : ¬ jm ≤ 11), Option.map_eq_none', Option.map_eq_none']
        rw [jalCal_none_iff jy false]
        constructor
        · intro hx; exact ⟨by omega, hx⟩
        · rintro ⟨-, hx⟩; exact hx
  · intro gy gm gd
    unfold toJalaali d2j
    rw [Option.map_eq_none']
    exact jalCal_none_iff _ false

/-- Claim C4: the spec's known fixed points of `toJalaali`/`toGregorian`. -/
theorem claim_C4 :
    toJalaali 2023 10 27 = some ⟨1402, 8, 5⟩ ∧
    toGregorian 1402 8 5 = some ⟨2023, 10, 27⟩ ∧
    toJalaali 2021 3 21 = some ⟨1400, 1, 1⟩ := by
  refine ⟨by decide, by decide, by decide⟩

/-- Claim C8: within the Int32-safe range, `div` is truncating-toward-zero
integer division and `mod` is its complementary remainder. -/
theorem claim_C8 (a b : Int) (hb : b ≠ 0)
    (h : -(2 ^ 31) ≤ Int.tdiv a b ∧ Int.tdiv a b < 2 ^ 31) :
    div a b = Int.tdiv a b ∧ mod a b = a - Int.tdiv a b * b := by
  constructor
  · exact toInt32_eq _ h.1 h.2
  · unfold mod
    rw [toInt32_eq _ h.1 h.2]

/-- Claim C8, witness at `(-7, 2)`: truncation gives `-3` where floor
division gives `-4`, and the remainder is negative. -/
theorem claim_C8_witness :
    ((div (-7) 2 = Int.tdiv (-7) 2 ∧ mod (-7) 2 = -7 - Int.tdiv (-7) 2 * 2) ∧
      div (-7) 2 = -3 ∧ mod (-7) 2 = -1 ∧ (-7 : Int) / 2 = -4 ∧
      Int.tdiv (-7) 2 ≠ (-7 : Int) / 2) :=
  ⟨claim_C8 (-7) 2 (by decide) ⟨by decide, by decide⟩, by decide, by decide, by decide,
    by decide⟩

/-- Claim C10 (corrected): `div` loses the truncated quotient exactly when
it leaves the Int32 range, but the implied Gregorian year bound is about
5.9 million, not 1.4 million: the `d2g ∘ g2d` round trip still holds at year
5000000 and fails at 6000000. -/
theorem claim_C10 :
    (∀ a b : Int, (Int.tdiv a b < -(2 ^ 31) ∨ 2 ^ 31 ≤ Int.tdiv a b) →
      div a b ≠ Int.tdiv a b) ∧
    d2g (g2d 5000000 1 1) = ⟨5000000, 1, 1⟩ ∧
    d2g (g2d 6000000 1 1) ≠ ⟨6000000, 1, 1⟩ := by
  refine ⟨?_, by decide, by decide⟩
  intro a b h
  unfold div toInt32
  omega

/-- Claim C10, counterexample to the "roughly 1.4 million" bound: the
round trip holds far above it, at years 1500000 and 5000000. -/
theorem claim_C10_cex :
    d2g (g2d 1500000 6 15) = ⟨1500000, 6, 15⟩ ∧
    d2g (g2d 5000000 12 31) = ⟨5000000, 12, 31⟩ := by
  refine ⟨by decide, by decide⟩
